import Mathlib

/-!
Verification of the vlife simulation engine (chris-zen/vlife).

This file gives a shallow embedding of the parts of the engine that the
checked properties talk about, translated from the Rust sources:

* `physics/geometry/bounding_box.rs` — axis-aligned bounding boxes and
  their incremental builder;
* `cell.rs` — `Cell::compute_contraction`, contact bookkeeping
  (`on_surface_contact`, `on_cell_contact`) and the energy-diffusion
  helpers;
* `cell_rank.rs` — `CellRank::insert`;
* `simulator.rs` — `Simulator::handle_contacts`,
  `Simulator::get_cell_id_closer_to` and the population refill loop of
  `Simulator::add_born_cells`;
* `neurons.rs` — `Layer::num_working_neurons`;
* `genome.rs` — `Genome::cross`;
* `object_set.rs` — `ObjectSet::get_pair_mut`;
* `physics/spring.rs` — `Spring::apply_constrain`.

The Rust `f64` scalar is embedded as `ℚ` where the code only uses field
operations and comparisons, and as `ℝ` where it takes square roots
(vector magnitudes).  The transcendental `exp` used by the energy
diffusion sigmoid is threaded through as an explicit function parameter.
Randomness (the crossover split index) is modelled by universally
quantifying over the value the thread RNG can produce.  Rust panics are
modelled with `Except String`.
-/

set_option maxHeartbeats 1000000

/-- 2-D vector over `ℚ`, embedding nalgebra `Vector2<f64>`/`Point2<f64>`
for the code paths that use no square roots. -/
structure Vec2Q where
  x : ℚ
  y : ℚ
deriving DecidableEq, Repr

instance : Add Vec2Q := ⟨fun a b => ⟨a.x + b.x, a.y + b.y⟩⟩

theorem Vec2Q.add_def (a b : Vec2Q) : a + b = ⟨a.x + b.x, a.y + b.y⟩ := rfl

/-- Componentwise minimum, embedding nalgebra's `Point2::inf`. -/
def Vec2Q.inf (a b : Vec2Q) : Vec2Q := ⟨min a.x b.x, min a.y b.y⟩

/-- Componentwise maximum, embedding nalgebra's `Point2::sup`. -/
def Vec2Q.sup (a b : Vec2Q) : Vec2Q := ⟨max a.x b.x, max a.y b.y⟩

/-! ## Axis-aligned bounding boxes (`physics/geometry/bounding_box.rs`) -/

/-- `AxisAlignedBoundingBox`: stored as center and size, as in the source. -/
structure AxisAlignedBoundingBox where
  center : Vec2Q
  size : Vec2Q
deriving DecidableEq, Repr

/-- `AxisAlignedBoundingBox::from_min_max`. -/
def AxisAlignedBoundingBox.fromMinMax (pmin pmax : Vec2Q) : AxisAlignedBoundingBox :=
  { center := ⟨(1/2) * (pmin.x + pmax.x), (1/2) * (pmin.y + pmax.y)⟩
    size := ⟨pmax.x - pmin.x, pmax.y - pmin.y⟩ }

/-- `AxisAlignedBoundingBox::contains_point`. -/
def AxisAlignedBoundingBox.containsPoint (bb : AxisAlignedBoundingBox) (point : Vec2Q) : Bool :=
  let halfSizeX := (1/2) * bb.size.x
  let halfSizeY := (1/2) * bb.size.y
  let minX := bb.center.x - halfSizeX
  let minY := bb.center.y - halfSizeY
  let maxX := bb.center.x + halfSizeX
  let maxY := bb.center.y + halfSizeY
  decide (point.x ≥ minX) && decide (point.x ≤ maxX) &&
    decide (point.y ≥ minY) && decide (point.y ≤ maxY)

/-- `AxisAlignedBoundingBoxBuilder`: running min/max corners. -/
structure AxisAlignedBoundingBoxBuilder where
  min : Vec2Q
  max : Vec2Q
deriving DecidableEq, Repr

/-- `AxisAlignedBoundingBoxBuilder::new`: both corners start at the origin. -/
def AxisAlignedBoundingBoxBuilder.new : AxisAlignedBoundingBoxBuilder :=
  { min := ⟨0, 0⟩, max := ⟨0, 0⟩ }

/-- `AxisAlignedBoundingBoxBuilder::add_point`. -/
def AxisAlignedBoundingBoxBuilder.addPoint (b : AxisAlignedBoundingBoxBuilder)
    (point : Vec2Q) : AxisAlignedBoundingBoxBuilder :=
  { min := b.min.inf point, max := b.max.sup point }

/-- `AxisAlignedBoundingBoxBuilder::build`. -/
def AxisAlignedBoundingBoxBuilder.build (b : AxisAlignedBoundingBoxBuilder) :
    AxisAlignedBoundingBox :=
  AxisAlignedBoundingBox.fromMinMax b.min b.max

/-- The bounding box computed by `ClosedPolygon::update`
(`physics/geometry/polygon.rs`): every point of the polygon is added to a
fresh builder, and the box is built from it.  (`update` adds the first
point and then each remaining point exactly once, which is the same as
folding `add_point` over the whole point list.) -/
def polygonBoundingBox (points : List Vec2Q) : AxisAlignedBoundingBox :=
  (points.foldl AxisAlignedBoundingBoxBuilder.addPoint AxisAlignedBoundingBoxBuilder.new).build

theorem builder_min_nonpos_max_nonneg (points : List Vec2Q)
    (b : AxisAlignedBoundingBoxBuilder)
    (hb : b.min.x ≤ 0 ∧ b.min.y ≤ 0 ∧ 0 ≤ b.max.x ∧ 0 ≤ b.max.y) :
    let r := points.foldl AxisAlignedBoundingBoxBuilder.addPoint b
    r.min.x ≤ 0 ∧ r.min.y ≤ 0 ∧ 0 ≤ r.max.x ∧ 0 ≤ r.max.y := by
  induction points generalizing b with
  | nil => exact hb
  | cons p ps ih =>
    apply ih
    obtain ⟨h1, h2, h3, h4⟩ := hb
    refine ⟨?_, ?_, ?_, ?_⟩
    · exact le_trans (min_le_left _ _) h1
    · exact le_trans (min_le_left _ _) h2
    · exact le_trans h3 (le_max_left _ _)
    · exact le_trans h4 (le_max_left _ _)

/-- Claim C10: every bounding box produced through
`AxisAlignedBoundingBoxBuilder` — in particular every polygon bounding
box rebuilt by `ClosedPolygon::update` — contains the origin: the
builder starts with both corners at `(0, 0)`, so the min corner never
exceeds `(0, 0)` and the max corner never drops below it, no matter
which points were added, and `contains_point (0, 0)` is true of the
built box. -/
theorem polygonBoundingBox_contains_origin (points : List Vec2Q) :
    (polygonBoundingBox points).containsPoint ⟨0, 0⟩ = true ∧
      (points.foldl AxisAlignedBoundingBoxBuilder.addPoint
        AxisAlignedBoundingBoxBuilder.new).min.x ≤ 0 ∧
      (points.foldl AxisAlignedBoundingBoxBuilder.addPoint
        AxisAlignedBoundingBoxBuilder.new).min.y ≤ 0 ∧
      0 ≤ (points.foldl AxisAlignedBoundingBoxBuilder.addPoint
        AxisAlignedBoundingBoxBuilder.new).max.x ∧
      0 ≤ (points.foldl AxisAlignedBoundingBoxBuilder.addPoint
        AxisAlignedBoundingBoxBuilder.new).max.y := by
  have h := builder_min_nonpos_max_nonneg points AxisAlignedBoundingBoxBuilder.new
    (by refine ⟨le_refl 0, le_refl 0, le_refl 0, le_refl 0⟩)
  obtain ⟨h1, h2, h3, h4⟩ := h
  refine ⟨?_, h1, h2, h3, h4⟩
  simp only [polygonBoundingBox, AxisAlignedBoundingBoxBuilder.build,
    AxisAlignedBoundingBox.fromMinMax, AxisAlignedBoundingBox.containsPoint]
  simp only [Bool.and_eq_true, decide_eq_true_eq]
  refine ⟨⟨⟨?_, ?_⟩, ?_⟩, ?_⟩ <;> linarith

/-! ## Cell contraction (`cell.rs`, `Cell::compute_contraction`) -/

/-- `CONTRACTION_COST` from `cell.rs`. -/
def CONTRACTION_COST : ℚ := 1/10000

/-- The fields of `Cell` read or written by `compute_contraction`. -/
structure ContractionState where
  energy : ℚ
  contractionAmount : ℚ
  contractionLimit : ℚ
  statsEnergyConsumed : ℚ
deriving DecidableEq, Repr

/-- `Cell::compute_contraction`, with the neural output
`neurons.get_contraction_amount()` passed in as `neuralOut`.  The cost is
computed from the current `contraction_amount`; when affordable it is
paid and the new amount is `max(neuralOut, 0) * contraction_limit`
(note: the source multiplies by the limit, it does not clamp to it). -/
def computeContraction (s : ContractionState) (neuralOut dt : ℚ) : ContractionState :=
  let contractionEnergy := s.contractionAmount * CONTRACTION_COST * dt
  if s.energy ≥ contractionEnergy then
    { s with
      energy := s.energy - contractionEnergy
      statsEnergyConsumed := s.statsEnergyConsumed + contractionEnergy
      contractionAmount := max neuralOut 0 * s.contractionLimit }
  else s

/-- Rust `f64::clamp(lo, hi)`. -/
def clampQ (x lo hi : ℚ) : ℚ := min (max x lo) hi

/-- Claim C6, counterexample: with energy 1, current contraction 0
(cost 0, affordable), neural output 1/2, limit 4/5 and dt 1, the code
sets `contraction_amount` to `max(1/2,0) * 4/5 = 2/5`, while the claim
(`clamp(out, 0, limit)`) demands 1/2. -/
theorem computeContraction_not_clamp :
    (computeContraction ⟨1, 0, 4/5, 0⟩ (1/2) 1).contractionAmount = 2/5 ∧
      clampQ (1/2) 0 (4/5) = 1/2 ∧
      (computeContraction ⟨1, 0, 4/5, 0⟩ (1/2) 1).contractionAmount ≠
        clampQ (1/2) 0 (4/5) := by
  have h1 : (computeContraction ⟨1, 0, 4/5, 0⟩ (1/2) 1).contractionAmount = 2/5 := by
    simp only [computeContraction]
    norm_num
  have h2 : clampQ (1/2) 0 (4/5) = 1/2 := by
    simp only [clampQ]
    norm_num
  refine ⟨h1, h2, ?_⟩
  rw [h1, h2]
  norm_num

/-- Claim C6 (amended): whenever the contraction cost
`contraction_amount * CONTRACTION_COST * dt` is affordable, it is
deducted from the energy (and recorded as consumed), and the new
`contraction_amount` is the neural output clamped below at 0 and then
*scaled* by `contraction_limit` (not clamped to it); when the limit is
non-negative and the neural output is at most 1 this result still lies
in `[0, contraction_limit]`.  When the cost is not affordable the whole
state is left unchanged. -/
theorem computeContraction_spec (s : ContractionState) (neuralOut dt : ℚ) :
    (s.contractionAmount * CONTRACTION_COST * dt ≤ s.energy →
      (computeContraction s neuralOut dt).energy =
          s.energy - s.contractionAmount * CONTRACTION_COST * dt ∧
        (computeContraction s neuralOut dt).contractionAmount =
          max neuralOut 0 * s.contractionLimit ∧
        (computeContraction s neuralOut dt).statsEnergyConsumed =
          s.statsEnergyConsumed + s.contractionAmount * CONTRACTION_COST * dt ∧
        (0 ≤ s.contractionLimit → neuralOut ≤ 1 →
          0 ≤ (computeContraction s neuralOut dt).contractionAmount ∧
            (computeContraction s neuralOut dt).contractionAmount ≤ s.contractionLimit)) ∧
      (¬ s.contractionAmount * CONTRACTION_COST * dt ≤ s.energy →
        computeContraction s neuralOut dt = s) := by
  constructor
  · intro h
    have hc : computeContraction s neuralOut dt =
        { s with
          energy := s.energy - s.contractionAmount * CONTRACTION_COST * dt
          statsEnergyConsumed :=
            s.statsEnergyConsumed + s.contractionAmount * CONTRACTION_COST * dt
          contractionAmount := max neuralOut 0 * s.contractionLimit } := by
      simp only [computeContraction, ge_iff_le, if_pos h]
    rw [hc]
    refine ⟨rfl, rfl, rfl, fun hlim hout => ⟨?_, ?_⟩⟩
    · exact mul_nonneg (le_max_right neuralOut 0) hlim
    · calc max neuralOut 0 * s.contractionLimit ≤ 1 * s.contractionLimit := by
            apply mul_le_mul_of_nonneg_right _ hlim
            exact max_le hout (by norm_num)
        _ = s.contractionLimit := one_mul _
  · intro h
    simp only [computeContraction, ge_iff_le, if_neg h]

/-- Claim C6 witness: an affordable concrete instance. -/
theorem computeContraction_spec_witness :
    ((0 : ℚ) * CONTRACTION_COST * 1 ≤ 1) ∧
      ((computeContraction ⟨1, 0, 4/5, 0⟩ (1/2) 1).energy = 1 - 0 * CONTRACTION_COST * 1 ∧
        (computeContraction ⟨1, 0, 4/5, 0⟩ (1/2) 1).contractionAmount =
          max (1/2) 0 * (4/5) ∧
        (computeContraction ⟨1, 0, 4/5, 0⟩ (1/2) 1).statsEnergyConsumed =
          0 + 0 * CONTRACTION_COST * 1 ∧
        (0 ≤ (4/5 : ℚ) → (1/2 : ℚ) ≤ 1 →
          0 ≤ (computeContraction ⟨1, 0, 4/5, 0⟩ (1/2) 1).contractionAmount ∧
            (computeContraction ⟨1, 0, 4/5, 0⟩ (1/2) 1).contractionAmount ≤ 4/5)) :=
  ⟨by norm_num [CONTRACTION_COST],
    (computeContraction_spec ⟨1, 0, 4/5, 0⟩ (1/2) 1).1 (by norm_num [CONTRACTION_COST])⟩

/-! ## Cell rank (`cell_rank.rs`) -/

/-- A `BTreeMap<NotNan<f64>, T>` insert: keeps keys strictly sorted,
replacing the value when the key is already present. -/
def btreeInsert {α : Type} : List (ℚ × α) → ℚ → α → List (ℚ × α)
  | [], k, v => [(k, v)]
  | (k0, v0) :: rest, k, v =>
    if k < k0 then (k, v) :: (k0, v0) :: rest
    else if k = k0 then (k, v) :: rest
    else (k0, v0) :: btreeInsert rest k v

/-- `CellRank`: a score-ordered map of up to `maxSize` entries.  The
entries are kept as a list sorted by strictly increasing score, which is
the `BTreeMap` representation invariant. -/
structure CellRank (α : Type) where
  cells : List (ℚ × α)
  maxSize : ℕ
deriving DecidableEq, Repr

/-- `CellRank::insert`.  The score parameter models an `f64`: `none`
stands for NaN.  `NotNan::new(score).expect("non-nan-score")` panics on
NaN, modelled as `.error`; otherwise the entry is inserted and, if the
map then exceeds `max_size`, the smallest-score entry (the head of the
sorted list) is popped. -/
def CellRank.insert {α : Type} (rank : CellRank α) (score : Option ℚ) (cell : α) :
    Except String (CellRank α) :=
  match score with
  | none => .error "non-nan-score"
  | some s =>
    let cells := btreeInsert rank.cells s cell
    let cells := if rank.maxSize < cells.length then cells.drop 1 else cells
    .ok { rank with cells := cells }

/-- Claim C8, counterexample: inserting a NaN score into a non-empty
rank does not return normally — it panics (`expect("non-nan-score")`),
modelled as an `Except.error`; in particular it is not the unchanged-
rank normal return the claim describes. -/
theorem cellRank_insert_nan_panics :
    (CellRank.insert (α := ℚ) ⟨[(1, 0)], 100⟩ none 7 = .error "non-nan-score") ∧
      CellRank.insert (α := ℚ) ⟨[(1, 0)], 100⟩ none 7 ≠ .ok ⟨[(1, 0)], 100⟩ :=
  ⟨rfl, fun h => Except.noConfusion h⟩

theorem btreeInsert_length {α : Type} (l : List (ℚ × α)) (k : ℚ) (v : α) :
    (btreeInsert l k v).length = l.length ∨ (btreeInsert l k v).length = l.length + 1 := by
  induction l with
  | nil => right; rfl
  | cons p rest ih =>
    obtain ⟨k0, v0⟩ := p
    simp only [btreeInsert]
    by_cases h1 : k < k0
    · right; simp [h1]
    · by_cases h2 : k = k0
      · left; simp [h1, h2]
      · rcases ih with h | h
        · left; simp [h1, h2, List.length_cons, h]
        · right; simp [h1, h2, List.length_cons, h]

/-- Claim C8 (amended): `CellRank::insert` rejects a NaN score by
panicking (`expect("non-nan-score")`) — the entry never enters the rank
but the call aborts instead of returning; for every non-NaN score the
call returns normally, and the resulting size never exceeds
`max(max_size, previous size)`. -/
theorem cellRank_insert_spec {α : Type} (rank : CellRank α) (cell : α) :
    (CellRank.insert rank none cell = .error "non-nan-score") ∧
      ∀ q : ℚ, ∃ rank2 : CellRank α,
        CellRank.insert rank (some q) cell = .ok rank2 ∧
          rank2.cells.length ≤ max rank.maxSize rank.cells.length ∧
          rank2.maxSize = rank.maxSize := by
  refine ⟨rfl, fun q => ?_⟩
  refine ⟨_, rfl, ?_, rfl⟩
  simp only
  by_cases h : rank.maxSize < (btreeInsert rank.cells q cell).length
  · simp only [if_pos h, List.length_drop]
    rcases btreeInsert_length rank.cells q cell with he | he
    · omega
    · omega
  · simp only [if_neg h]
    rcases btreeInsert_length rank.cells q cell with he | he
    · rw [he]; exact le_max_right _ _
    · omega

/-! ## Population refill (`simulator.rs`, `Simulator::add_born_cells`) -/

/-- `CellRank::choose_random_genome` returns `Some` exactly when the
rank is non-empty (it samples an index `0..len` and re-serializes that
cell's genome); only its `is_some`-ness matters for the refill loop. -/
def CellRank.chooseRandomGenomeIsSome {α : Type} (rank : CellRank α) : Bool :=
  !rank.cells.isEmpty

/-- The `while self.cells.len() < self.min_cells` loop at the end of
`Simulator::add_born_cells`.  When `create_recombined_genome()` returns
`Some` (i.e. the rank is non-empty), `Simulator::add_cell` is invoked,
whose body is `todo!()` — a panic, modelled as `.error "not yet
implemented"`.  Otherwise `add_random_cell()` grows the population by
one and the loop continues. -/
def addBornCellsLoop (minCells : ℕ) (rankNonempty : Bool) (numCells : ℕ) :
    Except String ℕ :=
  if numCells < minCells then
    if rankNonempty then .error "not yet implemented"
    else addBornCellsLoop minCells rankNonempty (numCells + 1)
  else .ok numCells
termination_by minCells - numCells

/-- `Simulator::add_born_cells`: first each queued born cell is inserted
(growing the population by the number of queued cells), then the refill
loop runs. -/
def addBornCells {α : Type} (minCells : ℕ) (rank : CellRank α)
    (numCells numBorn : ℕ) : Except String ℕ :=
  addBornCellsLoop minCells rank.chooseRandomGenomeIsSome (numCells + numBorn)

/-- Claim C1: with `min_cells = 50`, an empty population, no queued
births and a non-empty rank, `Simulator::add_born_cells` does not
restore the population to 50 — the very first refill iteration calls
`Simulator::add_cell`, whose body is `todo!()`, so the update panics
with "not yet implemented".  (With an empty rank the loop does refill:
see the second conjunct.) -/
theorem addBornCells_panics_with_nonempty_rank :
    (addBornCells (α := ℚ) 50 ⟨[(1, 0)], 100⟩ 0 0 = .error "not yet implemented") ∧
      addBornCells (α := ℚ) 50 ⟨[], 100⟩ 49 0 = .ok 50 := by
  constructor
  · rw [addBornCells, addBornCellsLoop]
    norm_num [CellRank.chooseRandomGenomeIsSome]
  · rw [addBornCells, addBornCellsLoop]
    norm_num [CellRank.chooseRandomGenomeIsSome]
    rw [addBornCellsLoop]
    norm_num

/-! ## Working neurons (`neurons.rs`, `Layer::num_working_neurons`) -/

/-- The indicator that `Layer::num_working_neurons` writes into the
copied weight matrix: `1.0` where `x.abs() > 0.0`, else `0.0`. -/
def weightIndicator (x : ℚ) : ℚ := if 0 < |x| then 1 else 0

/-- `Layer::num_working_neurons` (`neurons.rs`).  A weight matrix is a list
of rows; every row holds the incoming weights of one output unit.
`apply_into` maps the indicator over a copy of the matrix (the `&self`
receiver and the `Copy` matrix leave the stored weights untouched).  The
following statement in the source, `active.row_sum().apply(...)`, builds
a per-column sum vector that is immediately dropped, so the returned
value is `active.sum()`: the indicator summed over every matrix entry. -/
def layerNumWorkingNeurons (weights : List (List ℚ)) : ℚ :=
  let active := weights.map (fun row => row.map weightIndicator)
  (active.map (fun row => row.sum)).sum

/-- The three weight matrices of `Neurons` and the cached
`working_neurons` count. -/
structure NeuronsModel where
  inputLayerWeights : List (List ℚ)
  processingLayerWeights : List (List ℚ)
  outputLayerWeights : List (List ℚ)
  workingNeurons : ℚ

/-- `Neurons::random` with the three sampled weight matrices passed in
for the RNG draws: it caches `working_neurons` as the sum of the three
layers' `num_working_neurons`. -/
def neuronsRandom (w1 w2 w3 : List (List ℚ)) : NeuronsModel :=
  { inputLayerWeights := w1
    processingLayerWeights := w2
    outputLayerWeights := w3
    workingNeurons :=
      layerNumWorkingNeurons w1 + layerNumWorkingNeurons w2 + layerNumWorkingNeurons w3 }

/-- `Neurons::num_working_neurons`: returns the cached value. -/
def NeuronsModel.numWorkingNeurons (n : NeuronsModel) : ℚ := n.workingNeurons

/-- The count described by the specification (for comparison with the
source function): output units whose incoming weight row has at least
one non-zero element, each counted exactly once. -/
def specWorkingNeurons (weights : List (List ℚ)) : ℕ :=
  weights.countP (fun row => row.any (fun x => decide (x ≠ 0)))

/-- Number of non-zero entries of a weight matrix. -/
def nonzeroEntries (weights : List (List ℚ)) : ℕ :=
  (weights.map (fun row => row.countP (fun x => decide (x ≠ 0)))).sum

theorem weightIndicator_row_sum (row : List ℚ) :
    (row.map weightIndicator).sum = (row.countP (fun x => decide (x ≠ 0)) : ℚ) := by
  induction row with
  | nil => simp
  | cons x rest ih =>
    simp only [List.map_cons, List.sum_cons, List.countP_cons, ih, weightIndicator]
    by_cases hx : x = 0
    · simp [hx]
    · have : (0 : ℚ) < |x| := abs_pos.mpr hx
      simp [hx, this]
      ring

theorem layerNumWorkingNeurons_eq (w : List (List ℚ)) :
    layerNumWorkingNeurons w = (nonzeroEntries w : ℚ) := by
  induction w with
  | nil => simp [layerNumWorkingNeurons, nonzeroEntries]
  | cons row rest ih =>
    simp only [layerNumWorkingNeurons, nonzeroEntries, List.map_cons, List.sum_cons] at *
    rw [weightIndicator_row_sum, ih]
    push_cast
    ring

theorem specWorkingNeurons_le (w : List (List ℚ)) :
    specWorkingNeurons w ≤ nonzeroEntries w := by
  induction w with
  | nil => simp [specWorkingNeurons, nonzeroEntries]
  | cons row rest ih =>
    simp only [specWorkingNeurons, nonzeroEntries, List.countP_cons, List.map_cons,
      List.sum_cons] at *
    have hrow : (if (row.any fun x => decide (x ≠ 0)) = true then 1 else 0) ≤
        row.countP (fun x => decide (x ≠ 0)) := by
      by_cases h : (row.any fun x => decide (x ≠ 0)) = true
      · rw [if_pos h]
        obtain ⟨a, ha, hpa⟩ := List.any_eq_true.mp h
        exact List.countP_pos_iff.mpr ⟨a, ha, hpa⟩
      · rw [if_neg h]
        exact Nat.zero_le _
    omega

/-- Claim C3 (amended): for every `Neurons` value as produced by
`Neurons::random`, `num_working_neurons()` equals the total number of
non-zero *entries* across the three layers' weight matrices — a row with
several non-zero weights contributes one per non-zero entry, not one —
because the `active.row_sum().apply(...)` statement discards its result
and `active.sum()` sums the whole indicator matrix.  The count of the
claim (rows with at least one non-zero entry) is a lower bound.  The
weight matrices are never mutated (`num_working_neurons` takes `&self`
and `apply_into` operates on a copy; the embedding is a pure function of
the layer). -/
theorem numWorkingNeurons_counts_entries (w1 w2 w3 : List (List ℚ)) :
    (neuronsRandom w1 w2 w3).numWorkingNeurons =
        ((nonzeroEntries w1 + nonzeroEntries w2 + nonzeroEntries w3 : ℕ) : ℚ) ∧
      ∀ w : List (List ℚ), specWorkingNeurons w ≤ nonzeroEntries w := by
  constructor
  · simp only [neuronsRandom, NeuronsModel.numWorkingNeurons,
      layerNumWorkingNeurons_eq]
    push_cast
    ring
  · exact specWorkingNeurons_le

/-- The weight matrices of a concrete `Neurons` value in the dimensions
used by the source (29 inputs, 14 processing neurons, 13 outputs): the
first input-layer row has exactly two non-zero weights, all other
weights are zero. -/
def cexInputWeights : List (List ℚ) :=
  (1 :: 1 :: List.replicate 27 0) :: List.replicate 13 (List.replicate 29 0)

def cexProcessingWeights : List (List ℚ) := List.replicate 14 (List.replicate 14 0)

def cexOutputWeights : List (List ℚ) := List.replicate 13 (List.replicate 14 0)

/-- Claim C3, counterexample: for the `Neurons` value whose only
non-zero weights are the two in the first input-layer row,
`num_working_neurons()` returns 2, while the number of output units with
a non-all-zero incoming row is 1 (that one row counts twice, not
once). -/
theorem countP_replicate_zero_q (n : ℕ) :
    List.countP (fun x => decide (x ≠ 0)) (List.replicate n (0 : ℚ)) = 0 := by
  induction n with
  | zero => rfl
  | succ n ih => simp [List.replicate_succ, List.countP_cons, ih]

theorem any_replicate_zero_q (n : ℕ) :
    (List.replicate n (0 : ℚ)).any (fun x => decide (x ≠ 0)) = false := by
  induction n with
  | zero => rfl
  | succ n ih => simp [List.replicate_succ, ih]

theorem countP_rows_replicate_zero_q (m k : ℕ) :
    List.countP (fun row => row.any fun x => decide (x ≠ 0))
      (List.replicate m (List.replicate k (0 : ℚ))) = 0 := by
  induction m with
  | zero => rfl
  | succ m ih => simp [List.replicate_succ, List.countP_cons, ih, any_replicate_zero_q]

theorem numWorkingNeurons_double_counts :
    (neuronsRandom cexInputWeights cexProcessingWeights cexOutputWeights).numWorkingNeurons
        = 2 ∧
      specWorkingNeurons cexInputWeights + specWorkingNeurons cexProcessingWeights +
          specWorkingNeurons cexOutputWeights = 1 ∧
      (2 : ℚ) ≠ ((1 : ℕ) : ℚ) := by
  have hz29 := countP_replicate_zero_q 29
  have hz27 := countP_replicate_zero_q 27
  have hz14 := countP_replicate_zero_q 14
  have hrows1 := countP_rows_replicate_zero_q 13 29
  have hrows2 := countP_rows_replicate_zero_q 14 14
  have hrows3 := countP_rows_replicate_zero_q 13 14
  refine ⟨?_, ?_, by norm_num⟩
  · rw [(numWorkingNeurons_counts_entries cexInputWeights cexProcessingWeights
      cexOutputWeights).1]
    have h1 : nonzeroEntries cexInputWeights = 2 := by
      simp only [nonzeroEntries, cexInputWeights, List.map_cons, List.map_replicate,
        List.sum_cons, List.sum_replicate, List.countP_cons, hz27, hz29]
      norm_num
    have h2 : nonzeroEntries cexProcessingWeights = 0 := by
      simp only [nonzeroEntries, cexProcessingWeights, List.map_replicate,
        List.sum_replicate, hz14]
      norm_num
    have h3 : nonzeroEntries cexOutputWeights = 0 := by
      simp only [nonzeroEntries, cexOutputWeights, List.map_replicate,
        List.sum_replicate, hz14]
      norm_num
    rw [h1, h2, h3]
    norm_num
  · simp only [specWorkingNeurons, cexInputWeights, cexProcessingWeights, cexOutputWeights,
      List.countP_cons, hrows1, hrows2, hrows3]
    norm_num [any_replicate_zero_q 27]

/-! ## Handle arena (`object_set.rs`, `ObjectSet::get_pair_mut`) -/

/-- `ObjectSet::get_pair_mut` (`object_set.rs`).  The arena's `IndexMap`
is an insertion-ordered association list with pairwise-distinct keys.
`get_index_of` is `findIdx?` on the key.  When both handles resolve, the
slice is split after the smaller index and the second element is fetched
at offset `index2 - index1 - 1` into the right part; that `usize`
subtraction underflows when the indices are equal (same handle twice),
which panics — modelled by computing the offset in `ℤ` and returning
`.error` when it is negative (debug builds abort in the subtraction,
release builds wrap and abort on the out-of-bounds slice index). -/
def getPairMut {α : Type} (objects : List (ℕ × α)) (handle1 handle2 : ℕ) :
    Except String (Option (α × α)) :=
  match objects.findIdx? (fun p => p.1 == handle1),
        objects.findIdx? (fun p => p.1 == handle2) with
  | some index1, some index2 =>
    if index1 ≤ index2 then
      let left := objects.take (index1 + 1)
      let right := objects.drop (index1 + 1)
      let j : ℤ := (index2 : ℤ) - (index1 : ℤ) - 1
      if j < 0 then .error "attempt to subtract with overflow"
      else
        match left[index1]?, right[j.toNat]? with
        | some a, some b => .ok (some (a.2, b.2))
        | _, _ => .error "index out of bounds"
    else
      let left := objects.take (index2 + 1)
      let right := objects.drop (index2 + 1)
      let j : ℤ := (index1 : ℤ) - (index2 : ℤ) - 1
      if j < 0 then .error "attempt to subtract with overflow"
      else
        match right[j.toNat]?, left[index2]? with
        | some a, some b => .ok (some (a.2, b.2))
        | _, _ => .error "index out of bounds"
  | _, _ => .ok none

theorem nodup_keys_entry_eq {α : Type} {l : List (ℕ × α)} {a b : ℕ × α}
    (hnodup : (l.map Prod.fst).Nodup) (ha : a ∈ l) (hb : b ∈ l) (hab : a.1 = b.1) :
    a = b := by
  induction l with
  | nil => cases ha
  | cons x rest ih =>
    simp only [List.map_cons, List.nodup_cons] at hnodup
    rcases List.mem_cons.mp ha with ha1 | ha1 <;> rcases List.mem_cons.mp hb with hb1 | hb1
    · rw [ha1, hb1]
    · exfalso
      apply hnodup.1
      have hx : x.1 = b.1 := by rw [← ha1]; exact hab
      rw [hx]
      exact List.mem_map_of_mem Prod.fst hb1
    · exfalso
      apply hnodup.1
      have hx : x.1 = a.1 := by rw [← hb1]; exact hab.symm
      rw [hx]
      exact List.mem_map_of_mem Prod.fst ha1
    · exact ih hnodup.2 ha1 hb1

theorem findIdx?_key_present {α : Type} {l : List (ℕ × α)} {h : ℕ} {v : α}
    (hv : (h, v) ∈ l) (hnodup : (l.map Prod.fst).Nodup) :
    ∃ i, l.findIdx? (fun p => p.1 == h) = some i ∧ i < l.length ∧
      ∀ hw : i < l.length, l[i] = (h, v) := by
  have hex : ∃ x ∈ l, (x.1 == h) = true := ⟨(h, v), hv, by simp⟩
  have hlt : l.findIdx (fun p => p.1 == h) < l.length := List.findIdx_lt_length.mpr hex
  refine ⟨l.findIdx (fun p => p.1 == h), ?_, hlt, ?_⟩
  · exact List.findIdx?_eq_some_iff_findIdx_eq.mpr ⟨hlt, rfl⟩
  · intro hw
    have hkey := @List.findIdx_getElem _ (fun p => p.1 == h) l hlt
    apply nodup_keys_entry_eq hnodup (List.getElem_mem hw) hv
    simpa using hkey

theorem findIdx?_key_absent {α : Type} {l : List (ℕ × α)} {h : ℕ}
    (habs : h ∉ l.map Prod.fst) :
    l.findIdx? (fun p => p.1 == h) = none := by
  rw [List.findIdx?_eq_none_iff]
  intro x hx
  simp only [beq_eq_false_iff_ne, ne_eq]
  intro hk
  exact habs (hk ▸ List.mem_map_of_mem Prod.fst hx)

/-- Claim C9: `ObjectSet::get_pair_mut` returns `Some` of two distinct
stored objects exactly when the two handles are distinct and both
present (the two components are the entries stored under `handle1` and
`handle2` respectively, taken from two different positions of the
arena); when either handle is absent it returns `None`; and when the
same present handle is passed for both arguments it neither returns
aliasing references nor `None` — the offset `index2 - index1 - 1`
underflows and the call panics. -/
theorem getPairMut_spec {α : Type} (objects : List (ℕ × α)) (h1 h2 : ℕ)
    (hnodup : (objects.map Prod.fst).Nodup) :
    (∀ v1 v2 : α, (h1, v1) ∈ objects → (h2, v2) ∈ objects → h1 ≠ h2 →
        getPairMut objects h1 h2 = .ok (some (v1, v2))) ∧
      (∀ v : α, (h1, v) ∈ objects → h1 = h2 →
        getPairMut objects h1 h2 = .error "attempt to subtract with overflow") ∧
      ((h1 ∉ objects.map Prod.fst ∨ h2 ∉ objects.map Prod.fst) →
        getPairMut objects h1 h2 = .ok none) := by
  refine ⟨?_, ?_, ?_⟩
  · intro v1 v2 hv1 hv2 hne
    obtain ⟨i1, hf1, hl1, he1⟩ := findIdx?_key_present hv1 hnodup
    obtain ⟨i2, hf2, hl2, he2⟩ := findIdx?_key_present hv2 hnodup
    have hij : i1 ≠ i2 := by
      intro hcontra
      apply hne
      subst hcontra
      have h11 := he1 hl1
      have h12 := he2 hl1
      rw [h11] at h12
      exact congrArg Prod.fst h12
    by_cases hle : i1 ≤ i2
    · have hlt : i1 < i2 := lt_of_le_of_ne hle hij
      have hjpos : ¬ ((i2 : ℤ) - (i1 : ℤ) - 1 < 0) := by omega
      have htake : (objects.take (i1 + 1))[i1]? = some (h1, v1) := by
        rw [List.getElem?_take, if_pos (Nat.lt_succ_self i1), List.getElem?_eq_getElem hl1,
          he1 hl1]
      have hdrop : (objects.drop (i1 + 1))[((i2 : ℤ) - (i1 : ℤ) - 1).toNat]? =
          some (h2, v2) := by
        rw [List.getElem?_drop]
        have harith : i1 + 1 + ((i2 : ℤ) - (i1 : ℤ) - 1).toNat = i2 := by omega
        rw [harith, List.getElem?_eq_getElem hl2, he2 hl2]
      simp only [getPairMut, hf1, hf2, if_pos hle, if_neg hjpos, htake, hdrop]
    · have hlt : i2 < i1 := Nat.lt_of_not_le hle
      have hjpos : ¬ ((i1 : ℤ) - (i2 : ℤ) - 1 < 0) := by omega
      have htake : (objects.take (i2 + 1))[i2]? = some (h2, v2) := by
        rw [List.getElem?_take, if_pos (Nat.lt_succ_self i2), List.getElem?_eq_getElem hl2,
          he2 hl2]
      have hdrop : (objects.drop (i2 + 1))[((i1 : ℤ) - (i2 : ℤ) - 1).toNat]? =
          some (h1, v1) := by
        rw [List.getElem?_drop]
        have harith : i2 + 1 + ((i1 : ℤ) - (i2 : ℤ) - 1).toNat = i1 := by omega
        rw [harith, List.getElem?_eq_getElem hl1, he1 hl1]
      simp only [getPairMut, hf1, hf2, if_neg hle, if_neg hjpos, htake, hdrop]
  · intro v hv heq
    obtain ⟨i1, hf1, hl1, he1⟩ := findIdx?_key_present hv hnodup
    have hf2 : objects.findIdx? (fun p => p.1 == h2) = some i1 := by
      rw [← heq]; exact hf1
    have hneg : ((i1 : ℤ) - (i1 : ℤ) - 1 < 0) := by omega
    simp only [getPairMut, hf1, hf2, if_pos (le_refl i1), if_pos hneg]
  · intro habs
    rcases habs with habs | habs
    · rw [getPairMut, findIdx?_key_absent habs]
    · rw [getPairMut, findIdx?_key_absent habs]
      cases objects.findIdx? (fun p => p.1 == h1) <;> rfl

/-- Claim C9 witness: on the two-object arena `[(0, 10), (1, 20)]`,
distinct present handles yield the two stored objects, the same present
handle panics, and an absent handle yields `None`. -/
theorem getPairMut_spec_witness :
    (getPairMut [(0, (10 : ℚ)), (1, 20)] 0 1 = .ok (some (10, 20))) ∧
      (getPairMut [(0, (10 : ℚ)), (1, 20)] 0 0 =
        .error "attempt to subtract with overflow") ∧
      getPairMut [(0, (10 : ℚ)), (1, 20)] 2 0 = .ok none := by
  have hnodup : (([(0, (10 : ℚ)), (1, 20)]).map Prod.fst).Nodup := by
    simp
  refine ⟨?_, ?_, ?_⟩
  · exact (getPairMut_spec [(0, (10 : ℚ)), (1, 20)] 0 1 hnodup).1 10 20 (by simp)
      (by simp) (by omega)
  · exact (getPairMut_spec [(0, (10 : ℚ)), (1, 20)] 0 0 hnodup).2.1 10 (by simp) rfl
  · exact (getPairMut_spec [(0, (10 : ℚ)), (1, 20)] 2 0 hnodup).2.2 (Or.inl (by simp))

/-! ## Contact handling (`simulator.rs`, `Simulator::handle_contacts`) -/

/-- The fields of `Cell` read or written during contact handling. -/
structure ContactCell where
  energy : ℚ
  contactEnergyAbsorptionAmount : ℚ
  contactCount : ℚ
  contactNormal : Vec2Q
  statsEnergyAbsorbedIn : ℚ
  statsEnergyAbsorbedOut : ℚ
deriving DecidableEq, Repr

/-- `Cell::energy_permeability` (`cell.rs`):
`1.5 * (1.0 + exp(-5.0 * amount)).recip() - 0.5`.  `expFn` stands for
the `f64::exp` primitive. -/
def energyPermeability (expFn : ℚ → ℚ) (c : ContactCell) : ℚ :=
  (3/2) * (1 + expFn (-5 * c.contactEnergyAbsorptionAmount))⁻¹ - 1/2

/-- `Cell::energy_diffusion`. -/
def energyDiffusion (expFn : ℚ → ℚ) (c : ContactCell) : ℚ :=
  c.energy * energyPermeability expFn c

/-- `Cell::energy_absorption_from`. -/
def energyAbsorptionFrom (expFn : ℚ → ℚ) (self other : ContactCell) (dt : ℚ) : ℚ :=
  self.contactEnergyAbsorptionAmount * energyDiffusion expFn other * dt

/-- `Cell::on_surface_contact`: increments `contact_count` and adds the
normal to `contact_normal`. -/
def onSurfaceContact (c : ContactCell) (normal : Vec2Q) : ContactCell :=
  { c with
    contactCount := c.contactCount + 1
    contactNormal := c.contactNormal + normal }

/-- `Cell::on_cell_contact`: applies the energy delta, updates the
absorbed-in/out stats by the delta's sign, increments `contact_count`
and adds the normal to `contact_normal`. -/
def onCellContact (c : ContactCell) (energyDelta : ℚ) (normal : Vec2Q) : ContactCell :=
  { c with
    energy := c.energy + energyDelta
    statsEnergyAbsorbedIn :=
      if energyDelta > 0 then c.statsEnergyAbsorbedIn + energyDelta
      else c.statsEnergyAbsorbedIn
    statsEnergyAbsorbedOut :=
      if energyDelta > 0 then c.statsEnergyAbsorbedOut
      else if energyDelta < 0 then c.statsEnergyAbsorbedOut + (-energyDelta)
      else c.statsEnergyAbsorbedOut
    contactCount := c.contactCount + 1
    contactNormal := c.contactNormal + normal }

/-- The physics `Contact` enum consumed by `Simulator::handle_contacts`
(its two variants appear in the `match` in `simulator.rs`). -/
inductive Contact where
  | surface (id : ℕ) (normal : Vec2Q)
  | objects (id1 id2 : ℕ) (normal : Vec2Q)
deriving DecidableEq, Repr

/-- Map lookup on an insertion-ordered association list (the
`IndexMap`/`HashMap` `get`; keys are unique, so first-match lookup is
the map lookup). -/
def alistGet {β : Type} : List (ℕ × β) → ℕ → Option β
  | [], _ => none
  | p :: rest, k => if p.1 = k then some p.2 else alistGet rest k

/-- `get_mut` followed by an in-place update: rewrites the entry stored
under `k` (no-op when the key is absent). -/
def alistModify {β : Type} (l : List (ℕ × β)) (k : ℕ) (f : β → β) : List (ℕ × β) :=
  l.map (fun p => if p.1 = k then (p.1, f p.2) else p)

/-- One iteration of the contact loop in `Simulator::handle_contacts`:
a surface contact credits the touched cell through `on_surface_contact`;
an object-object contact, when both object ids resolve through
`object_cell` to live cells, computes the two absorption deltas from the
pre-contact cells and applies `on_cell_contact` to each cell with the
net delta and the contact normal. -/
def handleContactsStep (expFn : ℚ → ℚ) (dt : ℚ) (objectCell : List (ℕ × ℕ))
    (cells : List (ℕ × ContactCell)) : Contact → List (ℕ × ContactCell)
  | .surface id normal =>
    match alistGet objectCell id with
    | none => cells
    | some cid => alistModify cells cid (fun c => onSurfaceContact c normal)
  | .objects id1 id2 normal =>
    let cell1 := (alistGet objectCell id1).bind
      (fun cid => (alistGet cells cid).map (fun c => (cid, c)))
    let cell2 := (alistGet objectCell id2).bind
      (fun cid => (alistGet cells cid).map (fun c => (cid, c)))
    match cell1, cell2 with
    | some (cid1, c1), some (cid2, c2) =>
      let delta1 := energyAbsorptionFrom expFn c1 c2 dt
      let delta2 := energyAbsorptionFrom expFn c2 c1 dt
      let cells1 := alistModify cells cid1 (fun c => onCellContact c (delta1 - delta2) normal)
      alistModify cells1 cid2 (fun c => onCellContact c (delta2 - delta1) normal)
    | _, _ => cells

/-- `Simulator::handle_contacts`: first `contact_count` — and only
`contact_count` — is reset to zero for every cell (`contact_normal` is
not touched by the reset loop), then the tick's contacts are processed
in order. -/
def resetContactCount (c : ContactCell) : ContactCell :=
  { c with contactCount := 0 }

def handleContacts (expFn : ℚ → ℚ) (dt : ℚ) (objectCell : List (ℕ × ℕ))
    (cells : List (ℕ × ContactCell)) (contacts : List Contact) :
    List (ℕ × ContactCell) :=
  contacts.foldl (handleContactsStep expFn dt objectCell)
    (cells.map (fun p => (p.1, resetContactCount p.2)))

/-- The normal credited to cell `cid` by one contact (specification-side
bookkeeping used to state the amended claim): `present` tells which cell
ids are live. -/
def normalContribution (objectCell : List (ℕ × ℕ)) (present : ℕ → Bool) (cid : ℕ) :
    Contact → Vec2Q
  | .surface id normal =>
    match alistGet objectCell id with
    | some c => if c = cid then normal else ⟨0, 0⟩
    | none => ⟨0, 0⟩
  | .objects id1 id2 normal =>
    match alistGet objectCell id1, alistGet objectCell id2 with
    | some a, some b =>
      if present a ∧ present b then
        (if a = cid then normal else ⟨0, 0⟩) + (if b = cid then normal else ⟨0, 0⟩)
      else ⟨0, 0⟩
    | _, _ => ⟨0, 0⟩

/-- The number of contacts credited to cell `cid` by one contact. -/
def countContribution (objectCell : List (ℕ × ℕ)) (present : ℕ → Bool) (cid : ℕ) :
    Contact → ℚ
  | .surface id _ =>
    match alistGet objectCell id with
    | some c => if c = cid then 1 else 0
    | none => 0
  | .objects id1 id2 _ =>
    match alistGet objectCell id1, alistGet objectCell id2 with
    | some a, some b =>
      if present a ∧ present b then
        (if a = cid then 1 else 0) + (if b = cid then 1 else 0)
      else 0
    | _, _ => 0

/-- Sum of the normals credited to `cid` over a contact list. -/
def normalSum (objectCell : List (ℕ × ℕ)) (present : ℕ → Bool) (cid : ℕ) :
    List Contact → Vec2Q
  | [] => ⟨0, 0⟩
  | ct :: rest =>
    normalContribution objectCell present cid ct + normalSum objectCell present cid rest

/-- Number of contacts credited to `cid` over a contact list. -/
def countSum (objectCell : List (ℕ × ℕ)) (present : ℕ → Bool) (cid : ℕ) :
    List Contact → ℚ
  | [] => 0
  | ct :: rest =>
    countContribution objectCell present cid ct + countSum objectCell present cid rest

theorem Vec2Q.add_zero (v : Vec2Q) : v + (⟨0, 0⟩ : Vec2Q) = v := by
  cases v
  simp [Vec2Q.add_def]

theorem Vec2Q.add_assoc (a b c : Vec2Q) : a + b + c = a + (b + c) := by
  cases a; cases b; cases c
  simp only [Vec2Q.add_def, Vec2Q.mk.injEq]
  constructor <;> ring

theorem alistGet_modify_self {β : Type} (l : List (ℕ × β)) (k : ℕ) (f : β → β) :
    alistGet (alistModify l k f) k = (alistGet l k).map f := by
  induction l with
  | nil => rfl
  | cons p rest ih =>
    by_cases hp : p.1 = k
    · simp [alistModify, alistGet, hp]
    · simp only [alistModify, List.map_cons, if_neg hp, alistGet] at *
      exact ih

theorem alistGet_modify_ne {β : Type} (l : List (ℕ × β)) (k k2 : ℕ) (f : β → β)
    (hne : k2 ≠ k) :
    alistGet (alistModify l k f) k2 = alistGet l k2 := by
  induction l with
  | nil => rfl
  | cons p rest ih =>
    by_cases hp : p.1 = k
    · have hp2 : ¬ p.1 = k2 := by rw [hp]; exact fun h => hne h.symm
      simp only [alistModify, List.map_cons, if_pos hp, alistGet] at *
      rw [if_neg hp2, if_neg hp2, ih]
    · simp only [alistModify, List.map_cons, if_neg hp, alistGet] at *
      by_cases hp2 : p.1 = k2
      · rw [if_pos hp2, if_pos hp2]
      · rw [if_neg hp2, if_neg hp2, ih]

theorem alistGet_modify_isSome {β : Type} (l : List (ℕ × β)) (k k2 : ℕ) (f : β → β) :
    (alistGet (alistModify l k f) k2).isSome = (alistGet l k2).isSome := by
  by_cases h : k2 = k
  · rw [h, alistGet_modify_self]
    cases alistGet l k <;> rfl
  · rw [alistGet_modify_ne _ _ _ _ h]

theorem alistGet_reset {β : Type} (l : List (ℕ × β)) (g : β → β) (k : ℕ) :
    alistGet (l.map (fun p => (p.1, g p.2))) k = (alistGet l k).map g := by
  induction l with
  | nil => rfl
  | cons p rest ih =>
    by_cases hp : p.1 = k
    · simp [alistGet, hp]
    · simp only [List.map_cons, alistGet] at *
      rw [if_neg hp, if_neg hp, ih]

theorem Vec2Q.zero_add (v : Vec2Q) : (⟨0, 0⟩ : Vec2Q) + v = v := by
  cases v
  simp [Vec2Q.add_def]

theorem handleContactsStep_tracks (expFn : ℚ → ℚ) (dt : ℚ)
    (objectCell : List (ℕ × ℕ)) (present : ℕ → Bool)
    (s : List (ℕ × ContactCell)) (ct : Contact) (cid : ℕ) (c : ContactCell)
    (hpres : ∀ k, (alistGet s k).isSome = present k)
    (hc : alistGet s cid = some c) :
    (∀ k, (alistGet (handleContactsStep expFn dt objectCell s ct) k).isSome = present k) ∧
      ∃ c1, alistGet (handleContactsStep expFn dt objectCell s ct) cid = some c1 ∧
        c1.contactNormal = c.contactNormal + normalContribution objectCell present cid ct ∧
        c1.contactCount = c.contactCount + countContribution objectCell present cid ct := by
  cases ct with
  | surface id normal =>
    cases halG : alistGet objectCell id with
    | none =>
      simp only [handleContactsStep, normalContribution, countContribution, halG]
      exact ⟨hpres, c, hc, (Vec2Q.add_zero _).symm, by ring⟩
    | some a =>
      simp only [handleContactsStep, normalContribution, countContribution, halG]
      refine ⟨fun k => (alistGet_modify_isSome _ _ _ _).trans (hpres k), ?_⟩
      by_cases ha : a = cid
      · subst ha
        rw [alistGet_modify_self, hc]
        exact ⟨_, rfl, by simp [onSurfaceContact], by simp [onSurfaceContact]⟩
      · rw [alistGet_modify_ne _ _ _ _ (fun h => ha h.symm), hc]
        refine ⟨c, rfl, ?_, ?_⟩
        · rw [if_neg ha, Vec2Q.add_zero]
        · rw [if_neg ha]; ring
  | objects id1 id2 normal =>
    cases halG1 : alistGet objectCell id1 with
    | none =>
      simp only [handleContactsStep, normalContribution, countContribution, halG1,
        Option.bind]
      exact ⟨hpres, c, hc, (Vec2Q.add_zero _).symm, by ring⟩
    | some a =>
      cases halG2 : alistGet objectCell id2 with
      | none =>
        simp only [handleContactsStep, normalContribution, countContribution, halG1,
          halG2, Option.bind]
        cases alistGet s a <;>
          exact ⟨hpres, c, hc, (Vec2Q.add_zero _).symm, by ring⟩
      | some b =>
        cases hsa : alistGet s a with
        | none =>
          have hpa : present a = false := by rw [← hpres a, hsa]; rfl
          simp only [handleContactsStep, normalContribution, countContribution, halG1,
            halG2, hsa, Option.bind, Option.map, hpa, Bool.false_eq_true, false_and,
            if_false]
          exact ⟨hpres, c, hc, (Vec2Q.add_zero _).symm, by ring⟩
        | some ca =>
          have hpa : present a = true := by rw [← hpres a, hsa]; rfl
          cases hsb : alistGet s b with
          | none =>
            have hpb : present b = false := by rw [← hpres b, hsb]; rfl
            simp only [handleContactsStep, normalContribution, countContribution, halG1,
              halG2, hsa, hsb, Option.bind, Option.map, hpb, and_false,
              Bool.false_eq_true, if_false]
            exact ⟨hpres, c, hc, (Vec2Q.add_zero _).symm, by ring⟩
          | some cb =>
            have hpb : present b = true := by rw [← hpres b, hsb]; rfl
            simp only [handleContactsStep, normalContribution, countContribution, halG1,
              halG2, hsa, hsb, Option.bind, Option.map, hpa, hpb, and_self, if_true]
            refine ⟨fun k => (alistGet_modify_isSome _ _ _ _).trans
              ((alistGet_modify_isSome _ _ _ _).trans (hpres k)), ?_⟩
            by_cases hb : b = cid
            · subst hb
              rw [alistGet_modify_self]
              by_cases ha : a = b
              · subst ha
                rw [alistGet_modify_self, hc]
                refine ⟨_, rfl, ?_, ?_⟩
                · simp only [onCellContact, eq_self_iff_true, if_true, Vec2Q.add_assoc]
                · simp only [onCellContact, eq_self_iff_true, if_true]
                  ring
              · rw [alistGet_modify_ne _ _ _ _ (fun h => ha h.symm), hc]
                refine ⟨_, rfl, ?_, ?_⟩
                · simp only [onCellContact, if_neg ha, eq_self_iff_true, if_true,
                    Vec2Q.zero_add]
                · simp only [onCellContact, if_neg ha, eq_self_iff_true, if_true]
                  ring
            · rw [alistGet_modify_ne _ _ _ _ (fun h => hb h.symm)]
              by_cases ha : a = cid
              · subst ha
                rw [alistGet_modify_self, hc]
                refine ⟨_, rfl, ?_, ?_⟩
                · simp only [onCellContact, eq_self_iff_true, if_true, if_neg hb,
                    Vec2Q.add_zero]
                · simp only [onCellContact, eq_self_iff_true, if_true, if_neg hb]
                  ring
              · rw [alistGet_modify_ne _ _ _ _ (fun h => ha h.symm), hc]
                refine ⟨c, rfl, ?_, ?_⟩
                · rw [if_neg ha, if_neg hb, Vec2Q.add_zero, Vec2Q.add_zero]
                · rw [if_neg ha, if_neg hb]
                  ring

theorem handleContacts_fold (expFn : ℚ → ℚ) (dt : ℚ) (objectCell : List (ℕ × ℕ))
    (present : ℕ → Bool) (cid : ℕ) (contacts : List Contact) :
    ∀ (s : List (ℕ × ContactCell)) (c : ContactCell),
      (∀ k, (alistGet s k).isSome = present k) → alistGet s cid = some c →
      ∃ c1, alistGet (contacts.foldl (handleContactsStep expFn dt objectCell) s) cid
          = some c1 ∧
        c1.contactNormal = c.contactNormal + normalSum objectCell present cid contacts ∧
        c1.contactCount = c.contactCount + countSum objectCell present cid contacts := by
  induction contacts with
  | nil =>
    intro s c hpres hc
    exact ⟨c, hc, (Vec2Q.add_zero _).symm, by simp [countSum]⟩
  | cons ct rest ih =>
    intro s c hpres hc
    obtain ⟨hpres2, c1, hc1, hn1, hct1⟩ :=
      handleContactsStep_tracks expFn dt objectCell present s ct cid c hpres hc
    obtain ⟨c2, hc2, hn2, hct2⟩ := ih _ c1 hpres2 hc1
    refine ⟨c2, hc2, ?_, ?_⟩
    · rw [hn2, hn1, Vec2Q.add_assoc]
      simp only [normalSum]
    · rw [hct2, hct1]
      simp only [countSum]
      ring

/-- Claim C2 (amended): at the start of `Simulator::handle_contacts`
only `contact_count` is reset to zero; `contact_normal` is never reset.
Consequently, after contact handling each live cell's `contact_count`
equals the number of contacts credited to it in the current tick, but
its `contact_normal` equals its value carried over from previous ticks
plus the sum of the normals of the current tick's contacts credited to
it. -/
theorem handleContacts_spec (expFn : ℚ → ℚ) (dt : ℚ) (objectCell : List (ℕ × ℕ))
    (cells : List (ℕ × ContactCell)) (contacts : List Contact) (cid : ℕ)
    (c : ContactCell) (hc : alistGet cells cid = some c) :
    ∃ c1, alistGet (handleContacts expFn dt objectCell cells contacts) cid = some c1 ∧
      c1.contactCount =
        countSum objectCell (fun k => (alistGet cells k).isSome) cid contacts ∧
      c1.contactNormal = c.contactNormal +
        normalSum objectCell (fun k => (alistGet cells k).isSome) cid contacts := by
  have hreset : alistGet (cells.map (fun p => (p.1, resetContactCount p.2))) cid
      = some (resetContactCount c) := by
    rw [alistGet_reset, hc]
    rfl
  have hpres : ∀ k,
      (alistGet (cells.map (fun p => (p.1, resetContactCount p.2))) k).isSome
        = (alistGet cells k).isSome := by
    intro k
    rw [alistGet_reset]
    cases alistGet cells k <;> rfl
  obtain ⟨c1, hc1, hn, hcnt⟩ := handleContacts_fold expFn dt objectCell
    (fun k => (alistGet cells k).isSome) cid contacts _ _ hpres hreset
  refine ⟨c1, hc1, ?_, ?_⟩
  · rw [hcnt]
    simp [resetContactCount]
  · rw [hn]
    rfl

/-- Claim C2 witness: a single cell (id 0, owned object 7) that carries
contact normal `(1, 0)` from earlier ticks receives one surface contact
with normal `(0, 1)`. -/
theorem handleContacts_spec_witness :
    (alistGet [(0, (⟨5, 1/10, 3, ⟨1, 0⟩, 0, 0⟩ : ContactCell))] 0 =
        some ⟨5, 1/10, 3, ⟨1, 0⟩, 0, 0⟩) ∧
      ∃ c1, alistGet (handleContacts (fun _ => 1) 1 [(7, 0)]
          [(0, ⟨5, 1/10, 3, ⟨1, 0⟩, 0, 0⟩)] [Contact.surface 7 ⟨0, 1⟩]) 0 = some c1 ∧
        c1.contactCount = countSum [(7, 0)]
          (fun k => (alistGet [(0, (⟨5, 1/10, 3, ⟨1, 0⟩, 0, 0⟩ : ContactCell))] k).isSome)
          0 [Contact.surface 7 ⟨0, 1⟩] ∧
        c1.contactNormal = (⟨1, 0⟩ : Vec2Q) + normalSum [(7, 0)]
          (fun k => (alistGet [(0, (⟨5, 1/10, 3, ⟨1, 0⟩, 0, 0⟩ : ContactCell))] k).isSome)
          0 [Contact.surface 7 ⟨0, 1⟩] :=
  ⟨rfl, handleContacts_spec (fun _ => 1) 1 [(7, 0)]
    [(0, ⟨5, 1/10, 3, ⟨1, 0⟩, 0, 0⟩)] [Contact.surface 7 ⟨0, 1⟩] 0
    ⟨5, 1/10, 3, ⟨1, 0⟩, 0, 0⟩ rfl⟩

/-- Claim C2, counterexample: the same cell as in the witness — carrying
contact normal `(1, 0)` from previous ticks — receives a single surface
contact with normal `(0, 1)` in the current tick.  The claim demands
`contact_normal = (0, 1)` (the sum of the current tick's normals only);
the code leaves the stale component and yields `(1, 1)`. -/
theorem handleContacts_normal_not_reset :
    ∃ c1, alistGet (handleContacts (fun _ => 1) 1 [(7, 0)]
        [(0, ⟨5, 1/10, 3, ⟨1, 0⟩, 0, 0⟩)] [Contact.surface 7 ⟨0, 1⟩]) 0 = some c1 ∧
      c1.contactNormal = ⟨1, 1⟩ ∧ c1.contactCount = 1 ∧
      (⟨1, 1⟩ : Vec2Q) ≠ (⟨0, 1⟩ : Vec2Q) := by
  refine ⟨onSurfaceContact ⟨5, 1/10, 0, ⟨1, 0⟩, 0, 0⟩ ⟨0, 1⟩, ?_, ?_, ?_, ?_⟩
  · simp [handleContacts, handleContactsStep, alistGet, alistModify, resetContactCount]
  · simp only [onSurfaceContact, Vec2Q.add_def]
    norm_num
  · simp only [onSurfaceContact]
    norm_num
  · simp only [ne_eq, Vec2Q.mk.injEq]
    norm_num

/-! ## Genome crossover (`genome.rs`, `Genome::cross`) -/

/-- Keys of a genome.  A genome is a `BTreeMap<String, Gen>` represented
as an association list sorted by strictly increasing key; keys stand for
the slash-delimited path strings, of which only the total order
matters. -/
def genomeKeys (g : List (ℕ × ℚ)) : List ℕ := g.map Prod.fst

/-- `BTreeMap::get` on a genome. -/
def genomeGet (g : List (ℕ × ℚ)) (k : ℕ) : Option ℚ := alistGet g k

/-- `Option::or_else`, the gene-selection fallback in `Genome::cross`. -/
def optOr {α : Type} (o1 o2 : Option α) : Option α :=
  match o1 with
  | some v => some v
  | none => o2

/-- The sorted union of the two key sets, as produced by iterating
`keys1.union(&keys2)` over the two `BTreeSet`s. -/
def mergeKeys : List ℕ → List ℕ → List ℕ
  | [], ys => ys
  | x :: xs, [] => x :: xs
  | x :: xs, y :: ys =>
    if x < y then x :: mergeKeys xs (y :: ys)
    else if y < x then y :: mergeKeys (x :: xs) ys
    else x :: mergeKeys xs ys
termination_by a b => a.length + b.length

/-- `Genome::cross` (`genome.rs`) with the RNG draw `crossIndex`
(`rng.gen_range(1..num_genes - 1)`) passed in.  The sorted key union is
split at `crossIndex`; keys before the split take the gene from `self`
with `other` as fallback, the remaining keys from `other` with `self` as
fallback (the `expect("gen")` cannot fire because every union key is
present in at least one parent — the default value in the embedding is
never reached, as `genomeCross_spec` proves).  Inserting the sorted,
duplicate-free keys into the fresh `BTreeMap` in this order yields
exactly this sorted association list. -/
def genomeCross (g1 g2 : List (ℕ × ℚ)) (crossIndex : ℕ) : List (ℕ × ℚ) :=
  let keys := mergeKeys (genomeKeys g1) (genomeKeys g2)
  let keysA := keys.take crossIndex
  let keysB := keys.drop crossIndex
  keysA.map (fun k => (k, (optOr (genomeGet g1 k) (genomeGet g2 k)).getD 0)) ++
    keysB.map (fun k => (k, (optOr (genomeGet g2 k) (genomeGet g1 k)).getD 0))

theorem mem_mergeKeys (a : ℕ) : ∀ (xs ys : List ℕ),
    a ∈ mergeKeys xs ys ↔ a ∈ xs ∨ a ∈ ys := by
  intro xs ys
  induction xs, ys using mergeKeys.induct with
  | case1 ys => simp [mergeKeys]
  | case2 x xs => simp [mergeKeys]
  | case3 x xs y ys hxy ih =>
    rw [mergeKeys, if_pos hxy]
    simp only [List.mem_cons, ih]
    tauto
  | case4 x xs y ys hxy hyx ih =>
    rw [mergeKeys, if_neg hxy, if_pos hyx]
    simp only [List.mem_cons, ih]
    tauto
  | case5 x xs y ys hxy hyx ih =>
    have hxy2 : x = y := by omega
    rw [mergeKeys, if_neg hxy, if_neg hyx]
    simp only [List.mem_cons, ih]
    subst hxy2
    tauto

theorem mergeKeys_sorted : ∀ (xs ys : List ℕ),
    xs.Sorted (· < ·) → ys.Sorted (· < ·) → (mergeKeys xs ys).Sorted (· < ·) := by
  intro xs ys
  induction xs, ys using mergeKeys.induct with
  | case1 ys => intro _ h; simpa [mergeKeys] using h
  | case2 x xs => intro h _; simpa [mergeKeys] using h
  | case3 x xs y ys hxy ih =>
    intro hs1 hs2
    rw [mergeKeys, if_pos hxy]
    rw [List.sorted_cons] at hs1 ⊢
    refine ⟨?_, ih hs1.2 hs2⟩
    intro b hb
    rcases (mem_mergeKeys b xs (y :: ys)).mp hb with hbx | hby
    · exact hs1.1 b hbx
    · rcases List.mem_cons.mp hby with hbe | hbt
      · omega
      · have := (List.sorted_cons.mp hs2).1 b hbt
        omega
  | case4 x xs y ys hxy hyx ih =>
    intro hs1 hs2
    rw [mergeKeys, if_neg hxy, if_pos hyx]
    rw [List.sorted_cons] at hs2 ⊢
    refine ⟨?_, ih hs1 hs2.2⟩
    intro b hb
    rcases (mem_mergeKeys b (x :: xs) ys).mp hb with hbx | hby
    · rcases List.mem_cons.mp hbx with hbe | hbt
      · omega
      · have := (List.sorted_cons.mp hs1).1 b hbt
        omega
    · exact hs2.1 b hby
  | case5 x xs y ys hxy hyx ih =>
    intro hs1 hs2
    have hxy2 : x = y := by omega
    subst hxy2
    rw [mergeKeys, if_neg hxy, if_neg hyx]
    rw [List.sorted_cons] at hs1 hs2 ⊢
    refine ⟨?_, ih hs1.2 hs2.2⟩
    intro b hb
    rcases (mem_mergeKeys b xs ys).mp hb with hbx | hby
    · exact hs1.1 b hbx
    · exact hs2.1 b hby

theorem mergeKeys_self : ∀ (l : List ℕ), mergeKeys l l = l := by
  intro l
  induction l with
  | nil => simp [mergeKeys]
  | cons x xs ih =>
    rw [mergeKeys, if_neg (lt_irrefl x), if_neg (lt_irrefl x), ih]

theorem alistGet_append {β : Type} (l1 l2 : List (ℕ × β)) (k : ℕ) :
    alistGet (l1 ++ l2) k = optOr (alistGet l1 k) (alistGet l2 k) := by
  induction l1 with
  | nil => rfl
  | cons p rest ih =>
    by_cases hp : p.1 = k
    · simp [alistGet, hp, optOr]
    · simp only [List.cons_append, alistGet, if_neg hp]
      exact ih

theorem alistGet_mapKeys_mem {f : ℕ → ℚ} {keys : List ℕ} {k : ℕ} (hk : k ∈ keys) :
    alistGet (keys.map (fun j => (j, f j))) k = some (f k) := by
  induction keys with
  | nil => cases hk
  | cons x rest ih =>
    rcases List.mem_cons.mp hk with he | ht
    · subst he
      simp [alistGet]
    · by_cases hx : x = k
      · subst hx
        simp [alistGet]
      · simp only [List.map_cons, alistGet, if_neg hx]
        exact ih ht

theorem alistGet_mapKeys_not_mem {f : ℕ → ℚ} {keys : List ℕ} {k : ℕ} (hk : k ∉ keys) :
    alistGet (keys.map (fun j => (j, f j))) k = none := by
  induction keys with
  | nil => rfl
  | cons x rest ih =>
    have hx : ¬ x = k := fun h => hk (h ▸ List.mem_cons_self x rest)
    simp only [List.map_cons, alistGet, if_neg hx]
    exact ih (fun h => hk (List.mem_cons_of_mem x h))

theorem genomeGet_isSome_of_mem {g : List (ℕ × ℚ)} {k : ℕ} (hk : k ∈ genomeKeys g) :
    (genomeGet g k).isSome = true := by
  induction g with
  | nil => cases hk
  | cons p rest ih =>
    by_cases hp : p.1 = k
    · simp [genomeGet, alistGet, hp]
    · simp only [genomeKeys, List.map_cons, List.mem_cons] at hk
      rcases hk with he | ht
      · exact absurd he.symm hp
      · simp only [genomeGet, alistGet, if_neg hp]
        exact ih ht

theorem genomeCross_keys (g1 g2 : List (ℕ × ℚ)) (i : ℕ) :
    genomeKeys (genomeCross g1 g2 i) = mergeKeys (genomeKeys g1) (genomeKeys g2) := by
  simp only [genomeCross, genomeKeys, List.map_append, List.map_map]
  have h1 : (Prod.fst ∘ fun k =>
      (k, (optOr (genomeGet g1 k) (genomeGet g2 k)).getD 0)) = id := rfl
  have h2 : (Prod.fst ∘ fun k =>
      (k, (optOr (genomeGet g2 k) (genomeGet g1 k)).getD 0)) = id := rfl
  rw [h1, h2, List.map_id, List.map_id, List.take_append_drop]

/-- Claim C5: for genomes with sorted key lists whose key-set union `U`
has at least 3 keys and any split index the RNG can draw
(`gen_range(1..|U|-1)`, i.e. `1 ≤ i < |U| - 1`), `Genome::cross` returns
a genome whose key list is exactly the sorted union `U`; every key
before the split takes its gene from parent A with B as fallback, every
key at or after the split from B with A as fallback (and the fallback
chain always produces a gene — `expect("gen")` cannot fire); crossing a
genome with itself yields a genome with the same key set. -/
theorem genomeCross_spec (g1 g2 : List (ℕ × ℚ)) (i : ℕ)
    (h1 : (genomeKeys g1).Sorted (· < ·)) (h2 : (genomeKeys g2).Sorted (· < ·))
    (hU : 3 ≤ (mergeKeys (genomeKeys g1) (genomeKeys g2)).length)
    (hi1 : 1 ≤ i) (hi2 : i < (mergeKeys (genomeKeys g1) (genomeKeys g2)).length - 1) :
    genomeKeys (genomeCross g1 g2 i) = mergeKeys (genomeKeys g1) (genomeKeys g2) ∧
      (∀ k ∈ (mergeKeys (genomeKeys g1) (genomeKeys g2)).take i,
        genomeGet (genomeCross g1 g2 i) k = optOr (genomeGet g1 k) (genomeGet g2 k) ∧
          (optOr (genomeGet g1 k) (genomeGet g2 k)).isSome = true) ∧
      (∀ k ∈ (mergeKeys (genomeKeys g1) (genomeKeys g2)).drop i,
        genomeGet (genomeCross g1 g2 i) k = optOr (genomeGet g2 k) (genomeGet g1 k) ∧
          (optOr (genomeGet g2 k) (genomeGet g1 k)).isSome = true) ∧
      genomeKeys (genomeCross g1 g1 i) = genomeKeys g1 := by
  have hUsorted := mergeKeys_sorted _ _ h1 h2
  have hUnodup := hUsorted.nodup
  refine ⟨genomeCross_keys g1 g2 i, ?_, ?_, ?_⟩
  · intro k hk
    have hkU : k ∈ mergeKeys (genomeKeys g1) (genomeKeys g2) := List.mem_of_mem_take hk
    have hsome : (optOr (genomeGet g1 k) (genomeGet g2 k)).isSome = true := by
      rcases (mem_mergeKeys k _ _).mp hkU with hk1 | hk2
      · have hs := genomeGet_isSome_of_mem hk1
        cases hg : genomeGet g1 k with
        | none => rw [hg] at hs; exact absurd hs (by simp)
        | some v => simp [optOr, hg]
      · cases hg : genomeGet g1 k with
        | some v => simp [optOr, hg]
        | none =>
          have hs := genomeGet_isSome_of_mem hk2
          simpa [optOr, hg] using hs
    refine ⟨?_, hsome⟩
    obtain ⟨v, hv⟩ := Option.isSome_iff_exists.mp hsome
    have hA : alistGet (((mergeKeys (genomeKeys g1) (genomeKeys g2)).take i).map
        (fun j => (j, (optOr (genomeGet g1 j) (genomeGet g2 j)).getD 0))) k
        = some ((optOr (genomeGet g1 k) (genomeGet g2 k)).getD 0) :=
      alistGet_mapKeys_mem hk
    simp only [genomeGet] at hv hA ⊢
    simp only [genomeCross, genomeGet, alistGet_append, hA]
    rw [hv]
    simp [optOr]
  · intro k hk
    have hknotA : k ∉ (mergeKeys (genomeKeys g1) (genomeKeys g2)).take i :=
      fun hktake => List.disjoint_take_drop hUnodup (le_refl i) hktake hk
    have hkU : k ∈ mergeKeys (genomeKeys g1) (genomeKeys g2) := by
      have happ := List.take_append_drop i (mergeKeys (genomeKeys g1) (genomeKeys g2))
      rw [← happ]
      exact List.mem_append_right _ hk
    have hsome : (optOr (genomeGet g2 k) (genomeGet g1 k)).isSome = true := by
      rcases (mem_mergeKeys k _ _).mp hkU with hk1 | hk2
      · cases hg : genomeGet g2 k with
        | some v => simp [optOr, hg]
        | none =>
          have hs := genomeGet_isSome_of_mem hk1
          simpa [optOr, hg] using hs
      · have hs := genomeGet_isSome_of_mem hk2
        cases hg : genomeGet g2 k with
        | none => rw [hg] at hs; exact absurd hs (by simp)
        | some v => simp [optOr, hg]
    refine ⟨?_, hsome⟩
    obtain ⟨v, hv⟩ := Option.isSome_iff_exists.mp hsome
    have hA : alistGet (((mergeKeys (genomeKeys g1) (genomeKeys g2)).take i).map
        (fun j => (j, (optOr (genomeGet g1 j) (genomeGet g2 j)).getD 0))) k
        = none :=
      alistGet_mapKeys_not_mem hknotA
    have hB : alistGet (((mergeKeys (genomeKeys g1) (genomeKeys g2)).drop i).map
        (fun j => (j, (optOr (genomeGet g2 j) (genomeGet g1 j)).getD 0))) k
        = some ((optOr (genomeGet g2 k) (genomeGet g1 k)).getD 0) :=
      alistGet_mapKeys_mem hk
    simp only [genomeGet] at hv hA hB ⊢
    simp only [genomeCross, genomeGet, alistGet_append, hA, hB]
    rw [hv]
    simp [optOr]
  · rw [genomeCross_keys g1 g1 i, mergeKeys_self]

/-- Claim C5 witness: crossing `{0 ↦ 1, 1 ↦ 2}` with `{1 ↦ 5, 2 ↦ 7}`
(union `[0, 1, 2]`, three keys) at the only drawable split index 1. -/
theorem genomeCross_spec_witness :
    genomeKeys (genomeCross [(0, (1 : ℚ)), (1, 2)] [(1, 5), (2, 7)] 1) =
        mergeKeys (genomeKeys [(0, (1 : ℚ)), (1, 2)]) (genomeKeys [(1, (5 : ℚ)), (2, 7)]) ∧
      (∀ k ∈ (mergeKeys (genomeKeys [(0, (1 : ℚ)), (1, 2)])
          (genomeKeys [(1, (5 : ℚ)), (2, 7)])).take 1,
        genomeGet (genomeCross [(0, (1 : ℚ)), (1, 2)] [(1, 5), (2, 7)] 1) k =
            optOr (genomeGet [(0, (1 : ℚ)), (1, 2)] k) (genomeGet [(1, (5 : ℚ)), (2, 7)] k) ∧
          (optOr (genomeGet [(0, (1 : ℚ)), (1, 2)] k)
            (genomeGet [(1, (5 : ℚ)), (2, 7)] k)).isSome = true) ∧
      (∀ k ∈ (mergeKeys (genomeKeys [(0, (1 : ℚ)), (1, 2)])
          (genomeKeys [(1, (5 : ℚ)), (2, 7)])).drop 1,
        genomeGet (genomeCross [(0, (1 : ℚ)), (1, 2)] [(1, 5), (2, 7)] 1) k =
            optOr (genomeGet [(1, (5 : ℚ)), (2, 7)] k) (genomeGet [(0, (1 : ℚ)), (1, 2)] k) ∧
          (optOr (genomeGet [(1, (5 : ℚ)), (2, 7)] k)
            (genomeGet [(0, (1 : ℚ)), (1, 2)] k)).isSome = true) ∧
      genomeKeys (genomeCross [(0, (1 : ℚ)), (1, 2)] [(0, (1 : ℚ)), (1, 2)] 1) =
        genomeKeys [(0, (1 : ℚ)), (1, 2)] :=
  genomeCross_spec [(0, 1), (1, 2)] [(1, 5), (2, 7)] 1
    (by simp [genomeKeys, List.sorted_cons])
    (by simp [genomeKeys, List.sorted_cons])
    (by norm_num [genomeKeys, mergeKeys])
    (le_refl 1)
    (by norm_num [genomeKeys, mergeKeys])

/-! ## Real 2-D vectors, for the code paths that take square roots -/

/-- Euclidean magnitude of a 2-D vector (nalgebra `magnitude`). -/
noncomputable def magnitude (v : ℝ × ℝ) : ℝ := Real.sqrt (v.1 ^ 2 + v.2 ^ 2)

/-- Scaling a 2-D vector by a scalar (nalgebra `Vector2 * f64`). -/
def vscale (v : ℝ × ℝ) (c : ℝ) : ℝ × ℝ := (v.1 * c, v.2 * c)

theorem magnitude_nonneg (v : ℝ × ℝ) : 0 ≤ magnitude v := Real.sqrt_nonneg _

theorem magnitude_vscale (v : ℝ × ℝ) (c : ℝ) :
    magnitude (vscale v c) = |c| * magnitude v := by
  simp only [magnitude, vscale]
  rw [show (v.1 * c) ^ 2 + (v.2 * c) ^ 2 = c ^ 2 * (v.1 ^ 2 + v.2 ^ 2) by ring,
    Real.sqrt_mul (sq_nonneg c), Real.sqrt_sq_eq_abs]

theorem magnitude_pos {v : ℝ × ℝ} (hv : v ≠ 0) : 0 < magnitude v := by
  rw [magnitude, Real.sqrt_pos]
  have hne : ¬ (v.1 = 0 ∧ v.2 = 0) := fun hc => hv (Prod.ext_iff.mpr ⟨hc.1, hc.2⟩)
  rcases not_and_or.mp hne with h | h
  · have h1 : 0 < v.1 ^ 2 := (sq_nonneg v.1).lt_of_ne (Ne.symm (pow_ne_zero 2 h))
    linarith [sq_nonneg v.2]
  · have h1 : 0 < v.2 ^ 2 := (sq_nonneg v.2).lt_of_ne (Ne.symm (pow_ne_zero 2 h))
    linarith [sq_nonneg v.1]

theorem magnitude_axis (a : ℝ) : magnitude (a, 0) = |a| := by
  simp only [magnitude]
  rw [show a ^ 2 + (0:ℝ) ^ 2 = a ^ 2 by ring, Real.sqrt_sq_eq_abs]

/-! ## Spring constraint (`physics/spring.rs`, `Spring::apply_constrain`) -/

/-- `f64::EPSILON`, added to the inter-particle distance before
dividing. -/
noncomputable def f64Epsilon : ℝ := 2 ^ (-(52 : ℤ))

/-- `Spring::apply_constrain` on the two resolved particles (the
`get_pair_mut` success path); the result is the pair of updated
positions.  `axis` points from particle 1 to particle 2; the distance is
`|axis| + EPSILON`; the shared factor is
`(distance - length) / (distance * (m1 + m2)) * strength`, and each
particle's position moves along the axis by that factor times its *own*
mass (particle 1 towards particle 2, particle 2 towards particle 1). -/
noncomputable def applyConstrain (length strength m1 : ℝ) (p1 : ℝ × ℝ) (m2 : ℝ)
    (p2 : ℝ × ℝ) : (ℝ × ℝ) × (ℝ × ℝ) :=
  let axis := p2 - p1
  let distance := magnitude axis + f64Epsilon
  let normDistStrength := (distance - length) / (distance * (m1 + m2)) * strength
  (p1 + vscale axis (normDistStrength * m1), p2 - vscale axis (normDistStrength * m2))

/-- Claim C4 (amended): in `Spring::apply_constrain` each endpoint's
positional correction is the axis scaled by the common factor
`k·(d−L)/(d·(m₁+m₂))` times that endpoint's *own* mass, where
`d = |axis| + EPSILON`.  Consequently, when `0 < m₁ < m₂`, the particles
are not coincident, `d ≠ L` and `k ≠ 0`, the heavier particle's
displacement is strictly *larger* in magnitude than the lighter one's,
not smaller. -/
theorem applyConstrain_mass_weighting (length strength m1 m2 : ℝ) (p1 p2 : ℝ × ℝ)
    (hm1 : 0 < m1) (hm12 : m1 < m2) (hax : p2 - p1 ≠ 0)
    (hdL : magnitude (p2 - p1) + f64Epsilon ≠ length) (hk : strength ≠ 0) :
    ((applyConstrain length strength m1 p1 m2 p2).1 - p1 =
        vscale (p2 - p1)
          ((magnitude (p2 - p1) + f64Epsilon - length) /
            ((magnitude (p2 - p1) + f64Epsilon) * (m1 + m2)) * strength * m1)) ∧
      ((applyConstrain length strength m1 p1 m2 p2).2 - p2 =
        vscale (p2 - p1)
          (-((magnitude (p2 - p1) + f64Epsilon - length) /
            ((magnitude (p2 - p1) + f64Epsilon) * (m1 + m2)) * strength * m2))) ∧
      magnitude ((applyConstrain length strength m1 p1 m2 p2).1 - p1) <
        magnitude ((applyConstrain length strength m1 p1 m2 p2).2 - p2) := by
  have heps : (0:ℝ) < f64Epsilon := by rw [f64Epsilon]; positivity
  have hdpos : 0 < magnitude (p2 - p1) + f64Epsilon := by
    have := magnitude_nonneg (p2 - p1)
    linarith
  have h1 : (applyConstrain length strength m1 p1 m2 p2).1 - p1 =
      vscale (p2 - p1)
        ((magnitude (p2 - p1) + f64Epsilon - length) /
          ((magnitude (p2 - p1) + f64Epsilon) * (m1 + m2)) * strength * m1) := by
    simp only [applyConstrain]
    apply Prod.ext_iff.mpr
    constructor <;> simp [vscale] <;> ring
  have h2 : (applyConstrain length strength m1 p1 m2 p2).2 - p2 =
      vscale (p2 - p1)
        (-((magnitude (p2 - p1) + f64Epsilon - length) /
          ((magnitude (p2 - p1) + f64Epsilon) * (m1 + m2)) * strength * m2)) := by
    simp only [applyConstrain]
    apply Prod.ext_iff.mpr
    constructor <;> simp [vscale] <;> ring
  refine ⟨h1, h2, ?_⟩
  have hm2 : 0 < m2 := lt_trans hm1 hm12
  have hnds : ((magnitude (p2 - p1) + f64Epsilon - length) /
      ((magnitude (p2 - p1) + f64Epsilon) * (m1 + m2)) * strength) ≠ 0 := by
    apply mul_ne_zero _ hk
    apply div_ne_zero
    · intro hc
      exact hdL (by linarith)
    · exact ne_of_gt (mul_pos hdpos (by linarith))
  have hmagpos : 0 < magnitude (p2 - p1) := magnitude_pos hax
  rw [h1, h2, magnitude_vscale, magnitude_vscale]
  have habs1 : |(magnitude (p2 - p1) + f64Epsilon - length) /
      ((magnitude (p2 - p1) + f64Epsilon) * (m1 + m2)) * strength * m1| =
      |(magnitude (p2 - p1) + f64Epsilon - length) /
        ((magnitude (p2 - p1) + f64Epsilon) * (m1 + m2)) * strength| * m1 := by
    rw [abs_mul, abs_of_pos hm1]
  have habs2 : |-((magnitude (p2 - p1) + f64Epsilon - length) /
      ((magnitude (p2 - p1) + f64Epsilon) * (m1 + m2)) * strength * m2)| =
      |(magnitude (p2 - p1) + f64Epsilon - length) /
        ((magnitude (p2 - p1) + f64Epsilon) * (m1 + m2)) * strength| * m2 := by
    rw [abs_neg, abs_mul, abs_of_pos hm2]
  rw [habs1, habs2]
  have habspos : 0 < |(magnitude (p2 - p1) + f64Epsilon - length) /
      ((magnitude (p2 - p1) + f64Epsilon) * (m1 + m2)) * strength| := abs_pos.mpr hnds
  have hlt : |(magnitude (p2 - p1) + f64Epsilon - length) /
      ((magnitude (p2 - p1) + f64Epsilon) * (m1 + m2)) * strength| * m1 <
      |(magnitude (p2 - p1) + f64Epsilon - length) /
        ((magnitude (p2 - p1) + f64Epsilon) * (m1 + m2)) * strength| * m2 :=
    mul_lt_mul_of_pos_left hm12 habspos
  exact mul_lt_mul_of_pos_right hlt hmagpos

/-- Claim C4 witness: masses 1 and 2 at (0,0) and (3,0), rest length 1,
stiffness 1; the distance `3 + EPSILON` differs from the rest length and
the axis is non-zero. -/
theorem applyConstrain_mass_weighting_witness :
    ((0:ℝ) < 1) ∧ ((1:ℝ) < 2) ∧
      (((3:ℝ), (0:ℝ)) - ((0:ℝ), (0:ℝ)) ≠ 0) ∧
      (magnitude (((3:ℝ), (0:ℝ)) - ((0:ℝ), (0:ℝ))) + f64Epsilon ≠ 1) ∧
      ((1:ℝ) ≠ 0) ∧
      magnitude ((applyConstrain 1 1 1 ((0:ℝ), (0:ℝ)) 2 ((3:ℝ), (0:ℝ))).1 -
          ((0:ℝ), (0:ℝ))) <
        magnitude ((applyConstrain 1 1 1 ((0:ℝ), (0:ℝ)) 2 ((3:ℝ), (0:ℝ))).2 -
          ((3:ℝ), (0:ℝ))) := by
  have haxis : ((3:ℝ), (0:ℝ)) - ((0:ℝ), (0:ℝ)) = ((3:ℝ), (0:ℝ)) := by
    apply Prod.ext_iff.mpr
    constructor <;> norm_num
  have hax : ((3:ℝ), (0:ℝ)) - ((0:ℝ), (0:ℝ)) ≠ 0 := by
    rw [haxis]
    intro hc
    have := congrArg Prod.fst hc
    norm_num at this
  have hmag : magnitude (((3:ℝ), (0:ℝ)) - ((0:ℝ), (0:ℝ))) = 3 := by
    rw [haxis, magnitude_axis]
    norm_num
  have heps : (0:ℝ) < f64Epsilon := by rw [f64Epsilon]; positivity
  have hdL : magnitude (((3:ℝ), (0:ℝ)) - ((0:ℝ), (0:ℝ))) + f64Epsilon ≠ 1 := by
    rw [hmag]
    intro hc
    linarith
  exact ⟨by norm_num, by norm_num, hax, hdL, by norm_num,
    (applyConstrain_mass_weighting 1 1 1 2 ((0:ℝ), (0:ℝ)) ((3:ℝ), (0:ℝ))
      (by norm_num) (by norm_num) hax hdL (by norm_num)).2.2⟩

/-- Claim C4, counterexample: particles of masses 1 (at the origin) and
2 (at (3, 0)) joined by a spring of rest length 1 and stiffness 1.  One
`apply_constrain` pass moves the heavier particle exactly twice as far
as the lighter one, so the heavier particle's displacement is strictly
larger — the claim's "the heavier particle's displacement is strictly
smaller in magnitude" is false here (the masses differ and `d ≠ L`). -/
theorem applyConstrain_heavier_not_smaller :
    magnitude ((applyConstrain 1 1 1 ((0:ℝ), (0:ℝ)) 2 ((3:ℝ), (0:ℝ))).1 -
        ((0:ℝ), (0:ℝ))) <
      magnitude ((applyConstrain 1 1 1 ((0:ℝ), (0:ℝ)) 2 ((3:ℝ), (0:ℝ))).2 -
        ((3:ℝ), (0:ℝ))) ∧
      ¬ (magnitude ((applyConstrain 1 1 1 ((0:ℝ), (0:ℝ)) 2 ((3:ℝ), (0:ℝ))).2 -
            ((3:ℝ), (0:ℝ))) <
          magnitude ((applyConstrain 1 1 1 ((0:ℝ), (0:ℝ)) 2 ((3:ℝ), (0:ℝ))).1 -
            ((0:ℝ), (0:ℝ)))) := by
  have haxis : ((3:ℝ), (0:ℝ)) - ((0:ℝ), (0:ℝ)) = ((3:ℝ), (0:ℝ)) := by
    apply Prod.ext_iff.mpr
    constructor <;> norm_num
  have hmag3 : magnitude (((3:ℝ), (0:ℝ)) - ((0:ℝ), (0:ℝ))) = 3 := by
    rw [haxis, magnitude_axis]
    norm_num
  have heps : (0:ℝ) < f64Epsilon := by rw [f64Epsilon]; positivity
  have h1 : (applyConstrain 1 1 1 ((0:ℝ), (0:ℝ)) 2 ((3:ℝ), (0:ℝ))).1 - ((0:ℝ), (0:ℝ)) =
      vscale (((3:ℝ), (0:ℝ)) - ((0:ℝ), (0:ℝ)))
        ((magnitude (((3:ℝ), (0:ℝ)) - ((0:ℝ), (0:ℝ))) + f64Epsilon - 1) /
          ((magnitude (((3:ℝ), (0:ℝ)) - ((0:ℝ), (0:ℝ))) + f64Epsilon) * (1 + 2)) * 1 * 1) := by
    simp only [applyConstrain]
    apply Prod.ext_iff.mpr
    constructor <;> simp [vscale] <;> ring
  have h2 : (applyConstrain 1 1 1 ((0:ℝ), (0:ℝ)) 2 ((3:ℝ), (0:ℝ))).2 - ((3:ℝ), (0:ℝ)) =
      vscale (((3:ℝ), (0:ℝ)) - ((0:ℝ), (0:ℝ)))
        (-((magnitude (((3:ℝ), (0:ℝ)) - ((0:ℝ), (0:ℝ))) + f64Epsilon - 1) /
          ((magnitude (((3:ℝ), (0:ℝ)) - ((0:ℝ), (0:ℝ))) + f64Epsilon) * (1 + 2)) * 1 * 2)) := by
    simp only [applyConstrain]
    apply Prod.ext_iff.mpr
    constructor <;> simp [vscale] <;> ring
  have hnds : 0 < ((3:ℝ) + f64Epsilon - 1) / (((3:ℝ) + f64Epsilon) * (1 + 2)) := by
    apply div_pos
    · linarith
    · nlinarith
  have hpos1 : (0:ℝ) < (3 + f64Epsilon - 1) / (((3:ℝ) + f64Epsilon) * (1 + 2)) * 1 * 1 := by
    nlinarith
  have hneg2 : -((3 + f64Epsilon - 1) / (((3:ℝ) + f64Epsilon) * (1 + 2)) * 1 * 2) < 0 := by
    nlinarith
  constructor
  · rw [h1, h2, magnitude_vscale, magnitude_vscale, hmag3]
    rw [abs_of_pos hpos1, abs_of_neg hneg2]
    nlinarith
  · rw [h1, h2, magnitude_vscale, magnitude_vscale, hmag3]
    rw [abs_of_pos hpos1, abs_of_neg hneg2]
    nlinarith

/-! ## Closest-cell query (`simulator.rs`, `Simulator::get_cell_id_closer_to`) -/

/-- A physics `Object` as read by `get_cell_id_closer_to`: center
position and radius. -/
structure ObjectR where
  position : ℝ × ℝ
  radius : ℝ

/-- The running `Selection` of `Simulator::get_cell_id_closer_to`. -/
structure Selection where
  cellId : ℕ
  dist : ℝ
  hit : Bool

open Classical in
/-- One iteration of the loop in `Simulator::get_cell_id_closer_to`.
Cells whose object id does not resolve are skipped.  For a live cell,
`dist` is the distance from its object's center to the query point and
`hit` whether the point lies within the object's disk; a candidate
displaces the current selection exactly when `dist < selection.dist`
and (it is a hit or the current selection is not). -/
noncomputable def closerSelStep (pos : ℝ × ℝ) :
    Option Selection → ℕ × Option ObjectR → Option Selection
  | selected, (_, none) => selected
  | none, (cid, some object) =>
    some ⟨cid, magnitude (object.position - pos),
      decide (magnitude (object.position - pos) ≤ object.radius)⟩
  | some selection, (cid, some object) =>
    let dist := magnitude (object.position - pos)
    let hit : Bool := decide (dist ≤ object.radius)
    if dist < selection.dist ∧ (hit = true ∨ selection.hit = false) then
      some ⟨cid, dist, hit⟩
    else some selection

/-- `Simulator::get_cell_id_closer_to`: fold the selection over the
cells in iteration order and return the selected cell id, if any. -/
noncomputable def getCellIdCloserTo (cells : List (ℕ × Option ObjectR)) (x y : ℝ) :
    Option ℕ :=
  (cells.foldl (closerSelStep (x, y)) none).map Selection.cellId

theorem closerSelStep_dead (pos : ℝ × ℝ) (acc : Option Selection) (cid : ℕ) :
    closerSelStep pos acc (cid, none) = acc := by
  cases acc <;> simp [closerSelStep]

theorem closerSelStep_none (pos : ℝ × ℝ) (cid : ℕ) (obj : ObjectR) :
    closerSelStep pos none (cid, some obj) =
      some ⟨cid, magnitude (obj.position - pos),
        decide (magnitude (obj.position - pos) ≤ obj.radius)⟩ := by
  simp [closerSelStep]

theorem closerSelStep_some (pos : ℝ × ℝ) (s0 : Selection) (cid : ℕ) (obj : ObjectR) :
    closerSelStep pos (some s0) (cid, some obj) =
      if magnitude (obj.position - pos) < s0.dist ∧
          (decide (magnitude (obj.position - pos) ≤ obj.radius) = true ∨
            s0.hit = false) then
        some ⟨cid, magnitude (obj.position - pos),
          decide (magnitude (obj.position - pos) ≤ obj.radius)⟩
      else some s0 := by
  simp [closerSelStep]

theorem closerSel_fold_none (pos : ℝ × ℝ) (cells : List (ℕ × Option ObjectR)) :
    ∀ acc : Option Selection,
      cells.foldl (closerSelStep pos) acc = none ↔
        acc = none ∧ ∀ e ∈ cells, e.2 = none := by
  induction cells with
  | nil => intro acc; simp
  | cons e rest ih =>
    obtain ⟨cid, eo⟩ := e
    intro acc
    rw [List.foldl_cons, ih]
    cases eo with
    | none =>
      rw [closerSelStep_dead]
      constructor
      · rintro ⟨hacc, hdead⟩
        refine ⟨hacc, ?_⟩
        intro x hx
        rcases List.mem_cons.mp hx with h | h
        · rw [h]
        · exact hdead x h
      · rintro ⟨hacc, hdead⟩
        exact ⟨hacc, fun x hx => hdead x (List.mem_cons_of_mem _ hx)⟩
    | some obj =>
      constructor
      · rintro ⟨hstep, _⟩
        exfalso
        cases acc with
        | none => rw [closerSelStep_none] at hstep; exact Option.noConfusion hstep
        | some s0 =>
          rw [closerSelStep_some] at hstep
          by_cases hcond : magnitude (obj.position - pos) < s0.dist ∧
              (decide (magnitude (obj.position - pos) ≤ obj.radius) = true ∨
                s0.hit = false)
          · rw [if_pos hcond] at hstep; exact Option.noConfusion hstep
          · rw [if_neg hcond] at hstep; exact Option.noConfusion hstep
      · rintro ⟨_, hdead⟩
        have := hdead (cid, some obj) (List.mem_cons_self _ rest)
        exact absurd this (Option.noConfusion)

theorem closerSel_fold_sound (pos : ℝ × ℝ) (cells : List (ℕ × Option ObjectR)) :
    ∀ (acc : Option Selection) (sel : Selection),
      cells.foldl (closerSelStep pos) acc = some sel →
      acc = some sel ∨
        ∃ obj : ObjectR, (sel.cellId, some obj) ∈ cells ∧
          sel.dist = magnitude (obj.position - pos) ∧
          sel.hit = decide (magnitude (obj.position - pos) ≤ obj.radius) := by
  induction cells with
  | nil => intro acc sel h; exact Or.inl h
  | cons e rest ih =>
    obtain ⟨cid, eo⟩ := e
    intro acc sel hfold
    rw [List.foldl_cons] at hfold
    rcases ih (closerSelStep pos acc (cid, eo)) sel hfold with hstep | ⟨obj, hmem, hd, hh⟩
    · cases eo with
      | none =>
        rw [closerSelStep_dead] at hstep
        exact Or.inl hstep
      | some obj =>
        cases acc with
        | none =>
          rw [closerSelStep_none] at hstep
          have hsel := Option.some_inj.mp hstep
          refine Or.inr ⟨obj, ?_, ?_, ?_⟩
          · rw [← hsel]
            exact List.mem_cons_self _ rest
          · rw [← hsel]
          · rw [← hsel]
        | some s0 =>
          rw [closerSelStep_some] at hstep
          by_cases hcond : magnitude (obj.position - pos) < s0.dist ∧
              (decide (magnitude (obj.position - pos) ≤ obj.radius) = true ∨
                s0.hit = false)
          · rw [if_pos hcond] at hstep
            have hsel := Option.some_inj.mp hstep
            refine Or.inr ⟨obj, ?_, ?_, ?_⟩
            · rw [← hsel]
              exact List.mem_cons_self _ rest
            · rw [← hsel]
            · rw [← hsel]
          · rw [if_neg hcond] at hstep
            exact Or.inl hstep
    · exact Or.inr ⟨obj, List.mem_cons_of_mem _ hmem, hd, hh⟩

theorem closerSel_fold_min (pos : ℝ × ℝ) (cells : List (ℕ × Option ObjectR)) :
    ∀ (acc : Option Selection) (sel : Selection),
      cells.foldl (closerSelStep pos) acc = some sel → sel.hit = false →
      (∀ (cid : ℕ) (obj : ObjectR), ((cid, some obj) : ℕ × Option ObjectR) ∈ cells →
        sel.dist ≤ magnitude (obj.position - pos)) ∧
      (∀ s0 : Selection, acc = some s0 → s0.hit = false ∧ sel.dist ≤ s0.dist) := by
  induction cells with
  | nil =>
    intro acc sel hfold hhit
    refine ⟨fun cid obj h => absurd h (List.not_mem_nil _), fun s0 hacc => ?_⟩
    rw [hacc] at hfold
    have hs0 := Option.some_inj.mp hfold
    rw [← hs0] at hhit ⊢
    exact ⟨hhit, le_refl _⟩
  | cons e rest ih =>
    obtain ⟨ecid, eo⟩ := e
    intro acc sel hfold hhit
    rw [List.foldl_cons] at hfold
    obtain ⟨hminrest, haccstep⟩ := ih (closerSelStep pos acc (ecid, eo)) sel hfold hhit
    have hstepfacts : ∀ obj : ObjectR, eo = some obj →
        sel.dist ≤ magnitude (obj.position - pos) := by
      intro obj he
      subst he
      cases acc with
      | none => exact (haccstep _ (closerSelStep_none pos ecid obj)).2
      | some s0 =>
        by_cases hcond : magnitude (obj.position - pos) < s0.dist ∧
            (decide (magnitude (obj.position - pos) ≤ obj.radius) = true ∨
              s0.hit = false)
        · have hstepval := closerSelStep_some pos s0 ecid obj
          rw [if_pos hcond] at hstepval
          exact (haccstep _ hstepval).2
        · have hstepval := closerSelStep_some pos s0 ecid obj
          rw [if_neg hcond] at hstepval
          obtain ⟨hs0hit, hle⟩ := haccstep s0 hstepval
          have hnotlt : ¬ magnitude (obj.position - pos) < s0.dist := by
            intro hlt
            exact hcond ⟨hlt, Or.inr hs0hit⟩
          linarith [not_lt.mp hnotlt]
    refine ⟨?_, ?_⟩
    · intro cid obj hmem
      rcases List.mem_cons.mp hmem with h | h
      · have he : eo = some obj := congrArg Prod.snd h.symm
        exact hstepfacts obj he
      · exact hminrest cid obj h
    · intro s0 hacc
      subst hacc
      cases eo with
      | none => exact haccstep s0 (closerSelStep_dead pos (some s0) ecid)
      | some obj =>
        by_cases hcond : magnitude (obj.position - pos) < s0.dist ∧
            (decide (magnitude (obj.position - pos) ≤ obj.radius) = true ∨
              s0.hit = false)
        · have hstepval := closerSelStep_some pos s0 ecid obj
          rw [if_pos hcond] at hstepval
          obtain ⟨hnewhit, hnewle⟩ := haccstep _ hstepval
          have hs0hit : s0.hit = false := by
            rcases hcond.2 with hh | hh
            · rw [hh] at hnewhit
              exact absurd hnewhit (by simp)
            · exact hh
          exact ⟨hs0hit, by linarith [hcond.1]⟩
        · have hstepval := closerSelStep_some pos s0 ecid obj
          rw [if_neg hcond] at hstepval
          exact haccstep s0 hstepval

/-- Claim C7 (amended): `get_cell_id_closer_to` returns `None` exactly
when no cell has a live physics object.  Otherwise it returns the id of
the selection produced by a first-to-last scan in which a candidate
displaces the current selection exactly when its distance is strictly
smaller AND (its disk contains the query point or the current
selection's disk does not).  In particular a hit cell farther away than
the current selection does not displace it — hit cells are not globally
preferred over closer non-hit cells; rather, a selected hit cell is
never displaced by a non-hit one.  The returned selection always
corresponds to a live cell, carrying its true distance and hit flag, and
whenever the final selection is not a hit its distance is minimal among
all live cells (exact ties keep the first-encountered cell, since
displacement requires a strictly smaller distance). -/
theorem getCellIdCloserTo_spec (cells : List (ℕ × Option ObjectR)) (x y : ℝ) :
    (getCellIdCloserTo cells x y = none ↔ ∀ e ∈ cells, e.2 = none) ∧
      ∀ sel : Selection, cells.foldl (closerSelStep (x, y)) none = some sel →
        getCellIdCloserTo cells x y = some sel.cellId ∧
        (∃ obj : ObjectR, (sel.cellId, some obj) ∈ cells ∧
          sel.dist = magnitude (obj.position - (x, y)) ∧
          sel.hit = decide (magnitude (obj.position - (x, y)) ≤ obj.radius)) ∧
        (sel.hit = false → ∀ (cid : ℕ) (obj : ObjectR),
          ((cid, some obj) : ℕ × Option ObjectR) ∈ cells →
          sel.dist ≤ magnitude (obj.position - (x, y))) := by
  constructor
  · rw [getCellIdCloserTo, Option.map_eq_none', closerSel_fold_none]
    simp
  · intro sel hsel
    refine ⟨?_, ?_, ?_⟩
    · rw [getCellIdCloserTo, hsel]
      rfl
    · rcases closerSel_fold_sound (x, y) cells none sel hsel with h | h
      · exact absurd h (fun hc => Option.noConfusion hc)
      · exact h
    · intro hhit
      exact (closerSel_fold_min (x, y) cells none sel hsel hhit).1

/-- The two concrete cells used to witness and refute claim C7: cell 0's
object sits at distance 1 from the origin with radius 0 (no hit), cell
1's object at distance 4 with radius 10 (a hit). -/
noncomputable def cexObjA : ObjectR := ⟨((1:ℝ), (0:ℝ)), 0⟩

noncomputable def cexObjB : ObjectR := ⟨((4:ℝ), (0:ℝ)), 10⟩

theorem cexObjA_dist : magnitude (cexObjA.position - ((0:ℝ), (0:ℝ))) = 1 := by
  have h : cexObjA.position - ((0:ℝ), (0:ℝ)) = ((1:ℝ), (0:ℝ)) := by
    apply Prod.ext_iff.mpr
    constructor <;> simp [cexObjA]
  rw [h, magnitude_axis]
  norm_num

theorem cexObjB_dist : magnitude (cexObjB.position - ((0:ℝ), (0:ℝ))) = 4 := by
  have h : cexObjB.position - ((0:ℝ), (0:ℝ)) = ((4:ℝ), (0:ℝ)) := by
    apply Prod.ext_iff.mpr
    constructor <;> simp [cexObjB]
  rw [h, magnitude_axis]
  norm_num

/-- Claim C7 witness: a single live cell at distance 1 with radius 0
(not a hit) is returned, with its minimality property. -/
theorem getCellIdCloserTo_spec_witness :
    (getCellIdCloserTo [(0, some cexObjA)] 0 0 = none ↔
        ∀ e ∈ [((0 : ℕ), some cexObjA)], e.2 = none) ∧
      getCellIdCloserTo [(0, some cexObjA)] 0 0 =
        some (⟨0, magnitude (cexObjA.position - ((0:ℝ), (0:ℝ))),
          decide (magnitude (cexObjA.position - ((0:ℝ), (0:ℝ))) ≤ cexObjA.radius)⟩ :
            Selection).cellId ∧
      ∀ (cid : ℕ) (obj : ObjectR),
        ((cid, some obj) : ℕ × Option ObjectR) ∈ [((0 : ℕ), some cexObjA)] →
        (⟨0, magnitude (cexObjA.position - ((0:ℝ), (0:ℝ))),
          decide (magnitude (cexObjA.position - ((0:ℝ), (0:ℝ))) ≤ cexObjA.radius)⟩ :
            Selection).dist ≤ magnitude (obj.position - ((0:ℝ), (0:ℝ))) := by
  have hsel : [((0 : ℕ), some cexObjA)].foldl (closerSelStep ((0:ℝ), (0:ℝ))) none =
      some ⟨0, magnitude (cexObjA.position - ((0:ℝ), (0:ℝ))),
        decide (magnitude (cexObjA.position - ((0:ℝ), (0:ℝ))) ≤ cexObjA.radius)⟩ := by
    rw [List.foldl_cons, List.foldl_nil, closerSelStep_none]
  have hparts := (getCellIdCloserTo_spec [(0, some cexObjA)] 0 0).2 _ hsel
  have hhit : (⟨0, magnitude (cexObjA.position - ((0:ℝ), (0:ℝ))),
      decide (magnitude (cexObjA.position - ((0:ℝ), (0:ℝ))) ≤ cexObjA.radius)⟩ :
        Selection).hit = false := by
    show decide (magnitude (cexObjA.position - ((0:ℝ), (0:ℝ))) ≤ cexObjA.radius) = false
    rw [decide_eq_false_iff_not, cexObjA_dist]
    show ¬ (1 : ℝ) ≤ cexObjA.radius
    rw [show cexObjA.radius = 0 from rfl]
    norm_num
  exact ⟨(getCellIdCloserTo_spec [(0, some cexObjA)] 0 0).1, hparts.1,
    hparts.2.2 hhit⟩

/-- Claim C7, counterexample: cell 0 (distance 1, radius 0 — its disk
does not contain the origin) precedes cell 1 (distance 4, radius 10 —
its disk does contain it).  The claim demands that the hit cell 1 be
preferred over the non-hit cell 0, but the code returns cell 0: the hit
candidate is rejected because its distance is not strictly smaller than
the current selection's. -/
theorem getCellIdCloserTo_ignores_far_hit :
    getCellIdCloserTo [(0, some cexObjA), (1, some cexObjB)] 0 0 = some 0 ∧
      magnitude (cexObjB.position - ((0:ℝ), (0:ℝ))) ≤ cexObjB.radius ∧
      ¬ (magnitude (cexObjA.position - ((0:ℝ), (0:ℝ))) ≤ cexObjA.radius) ∧
      (0 : ℕ) ≠ 1 := by
  have hcond : ¬ (magnitude (cexObjB.position - ((0:ℝ), (0:ℝ))) <
      (⟨0, magnitude (cexObjA.position - ((0:ℝ), (0:ℝ))),
        decide (magnitude (cexObjA.position - ((0:ℝ), (0:ℝ))) ≤ cexObjA.radius)⟩ :
          Selection).dist ∧
      (decide (magnitude (cexObjB.position - ((0:ℝ), (0:ℝ))) ≤ cexObjB.radius) = true ∨
        (⟨0, magnitude (cexObjA.position - ((0:ℝ), (0:ℝ))),
          decide (magnitude (cexObjA.position - ((0:ℝ), (0:ℝ))) ≤ cexObjA.radius)⟩ :
            Selection).hit = false)) := by
    rintro ⟨hlt, _⟩
    have hlt2 : magnitude (cexObjB.position - ((0:ℝ), (0:ℝ))) <
        magnitude (cexObjA.position - ((0:ℝ), (0:ℝ))) := hlt
    rw [cexObjA_dist, cexObjB_dist] at hlt2
    linarith
  refine ⟨?_, ?_, ?_, by norm_num⟩
  · rw [getCellIdCloserTo, List.foldl_cons, List.foldl_cons, List.foldl_nil,
      closerSelStep_none, closerSelStep_some, if_neg hcond]
    rfl
  · rw [cexObjB_dist]
    show (4:ℝ) ≤ cexObjB.radius
    rw [show cexObjB.radius = 10 from rfl]
    norm_num
  · rw [cexObjA_dist]
    show ¬ (1:ℝ) ≤ cexObjA.radius
    rw [show cexObjA.radius = 0 from rfl]
    norm_num
